import Mathlib

/-!
Verification development for the HSDS Async Reconciliation Node
(`src/hsds/asyncnode.py`).

The Python code manipulates an `app` bag containing string-keyed dicts
(`s3keys`, `domains`, `roots`, the four kind indexes), where object records
are dicts shared by reference between several indexes.  We embed this with
an explicit heap: a `Val` is a Python scalar or a reference (address) to a
dict stored in the heap; dict mutation through any alias is a heap update.
Fallible Python steps (KeyError on missing dict keys, TypeError on `in` /
item access / arithmetic against a non-dict value, HTTP errors from the
object store) are embedded with `Except`.

External collaborators (the S3 object store, the DN delete endpoint, the
wall clock) are packaged in a `World` record of pure functions; S3 writes
and DN deletes are recorded in an output trace.
-/

set_option autoImplicit false

namespace AsyncNode

/-- Heap address of a Python dict. -/
abbrev Addr := Nat

/-- A Python value as used by asyncnode.py: scalars or a reference to a dict. -/
inductive Val where
  | bool (b : Bool)
  | int (n : Int)
  | str (s : String)
  | ref (a : Addr)
deriving DecidableEq, Repr

/-- A Python dict with string keys, in insertion order. -/
abbrev Dict := List (String × Val)

/-- The store of dicts. -/
abbrev Heap := List (Addr × Dict)

/-- First-match lookup (keys are kept unique by `dictSet`). -/
def dictGet (d : Dict) (k : String) : Option Val :=
  match d with
  | [] => none
  | (k', v) :: t => if k' = k then some v else dictGet t k

/-- Python `d[k] = v`: replace in place if present, else append. -/
def dictSet (d : Dict) (k : String) (v : Val) : Dict :=
  match d with
  | [] => [(k, v)]
  | (k', v') :: t => if k' = k then (k, v) :: t else (k', v') :: dictSet t k v

/-- Python `del d[k]` (caller checks presence). -/
def dictDel (d : Dict) (k : String) : Dict :=
  match d with
  | [] => []
  | (k', v') :: t => if k' = k then t else (k', v') :: dictDel t k

/-- Dict membership, as a Bool. -/
def dictHas (d : Dict) (k : String) : Bool :=
  (dictGet d k).isSome

/-- Dereference an address (a live Python reference always resolves). -/
def heapGet (h : Heap) (a : Addr) : Dict :=
  match h with
  | [] => []
  | (a', d) :: t => if a' = a then d else heapGet t a

/-- Store a dict at an address (replace in place, else append). -/
def heapSet (h : Heap) (a : Addr) (d : Dict) : Heap :=
  match h with
  | [] => [(a, d)]
  | (a', d') :: t => if a' = a then (a, d) :: t else (a', d') :: heapSet t a d

/-- Python errors the embedded code can raise. -/
inductive Err where
  | keyError
  | typeError
  | attrError
  | httpError
deriving DecidableEq, Repr

/-- Observable effects: S3 manifest writes, DN delete requests, warnings. -/
inductive Out where
  | putBytes (key : String) (data : String)
  | putFail (key : String)
  | dnDelete (req : String)
  | warn (site : String)
deriving DecidableEq, Repr

/-- Python substring test `pat in s` (patterns used are non-empty literals). -/
def strContains (s pat : String) : Bool :=
  (s.splitOn pat).length > 1

/-- Python `k in v` for a string key `k`: dict-key membership on a dict
reference, substring test on a string, TypeError otherwise. -/
def pyContains (h : Heap) (v : Val) (k : String) : Except Err Bool :=
  match v with
  | .ref r => .ok (dictHas (heapGet h r) k)
  | .str s => .ok (strContains s k)
  | _ => .error .typeError

/-- Python `v[k]` for a string key: dict lookup (KeyError when missing);
TypeError on any non-dict (string indices must be integers). -/
def pyGet (h : Heap) (v : Val) (k : String) : Except Err Val :=
  match v with
  | .ref r =>
    match dictGet (heapGet h r) k with
    | some x => .ok x
    | none => .error .keyError
  | _ => .error .typeError

/-- Python `v[k] = x`: only dict references support item assignment. -/
def pySetItem (h : Heap) (v : Val) (k : String) (x : Val) : Except Err Heap :=
  match v with
  | .ref r => .ok (heapSet h r (dictSet (heapGet h r) k x))
  | _ => .error .typeError

/-- Python `del v[k]`: dict reference only; KeyError when the key is absent. -/
def pyDelItem (h : Heap) (v : Val) (k : String) : Except Err Heap :=
  match v with
  | .ref r =>
    if dictHas (heapGet h r) k then .ok (heapSet h r (dictDel (heapGet h r) k))
    else .error .keyError
  | _ => .error .typeError

/-- Python `len(v)`: dicts and strings have a length, ints/bools do not. -/
def pyLen (h : Heap) (v : Val) : Except Err Nat :=
  match v with
  | .ref r => .ok (heapGet h r).length
  | .str s => .ok s.length
  | _ => .error .typeError

/-- Python `.keys()` (as a list, in insertion order): dicts only. -/
def pyKeys (h : Heap) (v : Val) : Except Err (List String) :=
  match v with
  | .ref r => .ok ((heapGet h r).map Prod.fst)
  | _ => .error .attrError

/-- Numeric coercion used by Python `+`/`-`/`<` against an int:
ints are themselves, bools are 0/1, anything else raises TypeError. -/
def toIntE (v : Val) : Except Err Int :=
  match v with
  | .int n => .ok n
  | .bool b => .ok (if b then 1 else 0)
  | _ => .error .typeError

/-- Python `str(v)` as used by `"...".format(...)`.  Records are only ever
formatted through their scalar fields in the paths the claims touch; the
dict rendering is a placeholder. -/
def pyStr (v : Val) : String :=
  match v with
  | .str s => s
  | .int n => toString n
  | .bool b => if b then "True" else "False"
  | .ref _ => "<dict>"

/-! ## Id classification

`util.idUtil`, `util.domainUtil` and `util.chunkUtil` are not part of the
sources; the classifier below is the spec's component 4.B. -/

/-- Modelled from the spec: `util.domainUtil.isValidDomain` is missing from
the sources; per spec section 3 a domain id is a path-shaped name beginning
with a slash. -/
def isValidDomain (s : String) : Bool :=
  s.length ≥ 2 && s.take 1 = "/"

/-- Modelled from the spec: UUID-shaped ids for groups, datasets and
datatypes carry a two-character kind prefix followed by a 36-character
UUID (38 characters in all). -/
def isUuidForm (s : String) : Bool :=
  s.length = 38 && (s.take 2 = "g-" || s.take 2 = "d-" || s.take 2 = "t-")

/-- Modelled from the spec: `util.idUtil.isValidChunkId` is missing from the
sources; a chunk id is `c-` plus the 36-character dataset UUID body, an
underscore at index 38, and a non-empty coordinate suffix (the fixed
39-character prefix rule of spec section 4.F). -/
def isValidChunkId (s : String) : Bool :=
  s.length > 39 && s.take 2 = "c-" && (s.drop 38).take 1 = "_"

/-- Modelled from the spec: `util.idUtil.isValidUuid` is missing from the
sources; per spec section 6 the notification endpoints accept every id that
is a valid UUID or chunk id, so the predicate covers both shapes. -/
def isValidUuid (s : String) : Bool :=
  isUuidForm s || isValidChunkId s

/-- Modelled from the spec: `util.idUtil.getCollectionForId` maps a UUID to
its kind's index name via the kind prefix. -/
def getCollectionForId (s : String) : String :=
  if s.take 2 = "g-" then "groups"
  else if s.take 2 = "d-" then "datasets"
  else if s.take 2 = "t-" then "datatypes"
  else "unknown"

/-- Modelled from the spec: `util.chunkUtil.getDatasetId` recovers the
parent dataset id from a chunk id (spec glossary: the chunk id encodes the
parent dataset id as a prefix). -/
def getDatasetId (s : String) : String :=
  "d-" ++ (s.drop 2).take 36

/-- Modelled from the spec: `util.idUtil.getS3Key` maps an id to its
object-store key, bijectively within the bucket namespace (spec 4.B); UUIDs
and chunk ids are their own keys, domains drop the leading slash and gain a
fixed suffix. -/
def getS3Key (s : String) : String :=
  if s.take 1 = "/" then s.drop 1 ++ "/.domain.json" else s

/-! ## External world and application state -/

/-- Result of `getS3ObjStats` for one key. -/
structure S3Stats where
  etag : String
  lastModified : Int
  size : Int
deriving DecidableEq, Repr

/-- The fields the AN reads out of a fetched JSON object. -/
structure S3Json where
  root : Option String
  rootid : Option String
  domain : Option String
deriving DecidableEq, Repr

/-- External collaborators: the object store, the DN delete endpoint and
the clock.  `none` from `stats`/`json` stands for an HttpProcessingError. -/
structure World where
  stats : String → Option S3Stats
  json : String → Option S3Json
  s3exists : String → Bool
  putOk : String → Bool
  dnDeleteOk : String → Bool
  dnUrl : String → String
  now : Int

/-- A pending-queue item. -/
structure QItem where
  objid : String
  action : String
deriving DecidableEq, Repr

/-- The `app` bag: the object graph, derived state, the queue, and the
heap backing every record dict. -/
structure App where
  heap : Heap := []
  next : Addr := 0
  s3keys : Dict := []
  domains : Dict := []
  roots : Dict := []
  groups : Dict := []
  datasets : Dict := []
  datatypes : Dict := []
  chunks : Dict := []
  bytes_in_bucket : Int := 0
  deleted_objids : List String := []
  pending_queue : List QItem := []
  bucket_stats : Dict := []
  anonymous_ttl : Int := 0
deriving Repr

/-- `app[collection]` for the four global kind indexes. -/
def getColl (a : App) (c : String) : Dict :=
  if c = "groups" then a.groups
  else if c = "datasets" then a.datasets
  else if c = "datatypes" then a.datatypes
  else if c = "chunks" then a.chunks
  else []

/-- Write back `app[collection]`. -/
def setColl (a : App) (c : String) (d : Dict) : App :=
  if c = "groups" then { a with groups := d }
  else if c = "datasets" then { a with datasets := d }
  else if c = "datatypes" then { a with datatypes := d }
  else if c = "chunks" then { a with chunks := d }
  else a

/-- Allocate a fresh dict (`{}` in Python) and return its reference. -/
def alloc (a : App) (d : Dict) : App × Addr :=
  ({ a with heap := heapSet a.heap a.next d, next := a.next + 1 }, a.next)

/-- `getS3ObjStats` materialises a fresh dict with keys ETag, LastModified,
Size (in the order named by the source comment at asyncnode.py line 330). -/
def statsDict (st : S3Stats) : Dict :=
  [("ETag", .str st.etag), ("LastModified", .int st.lastModified),
   ("Size", .int st.size)]

/-- Python truthiness of a value (`if not v`). -/
def pyTruthy (h : Heap) (v : Val) : Bool :=
  match v with
  | .bool b => b
  | .int n => n ≠ 0
  | .str s => s ≠ ""
  | .ref r => heapGet h r ≠ []

/-- Checked form of `app[collection]`: Python raises KeyError for a name
that is not one of the four kind indexes. -/
def getCollE (a : App) (c : String) : Except Err Dict :=
  if c = "groups" || c = "datasets" || c = "datatypes" || c = "chunks" then
    .ok (getColl a c)
  else .error .keyError

/-! ## Sweeper (asyncnode.py lines 152-266) -/

/-- Outcome of `sweepObj`: the Python return value, or an uncaught
exception.  The state at the point of the exception is kept alongside. -/
inductive SweepR where
  | done (b : Bool)
  | exn (e : Err)
deriving DecidableEq, Repr

/-- `sweepObj(app, objid, force=False)`, asyncnode.py lines 152-203.
Looks the object up in `s3keys`, applies the TTL gate, issues the DN
delete, and on success removes the object from its kind index and from
`s3keys` and subtracts its size from `bytes_in_bucket`. -/
def sweepObj (w : World) (a : App) (objid : String) (force : Bool) :
    SweepR × App × List Out :=
  let s3key := getS3Key objid
  match dictGet a.s3keys s3key with
  | none => (.done false, a, [])
  | some obj =>
    match pyContains a.heap obj "LastModified" with
    | .error e => (.exn e, a, [])
    | .ok false => (.done false, a, [])
    | .ok true =>
      match pyGet a.heap obj "LastModified" with
      | .error e => (.exn e, a, [])
      | .ok lastModified =>
        -- `if not force and now - lastModified < app["anonymous_ttl"]`:
        -- the arithmetic runs only when `force` is false (short circuit)
        let ttlGate : Except Err Bool :=
          if force then .ok false
          else match toIntE lastModified with
            | .error e => .error e
            | .ok lm => .ok (decide (w.now - lm < a.anonymous_ttl))
        match ttlGate with
        | .error e => (.exn e, a, [])
        | .ok true => (.done false, a, [])
        | .ok false =>
          match pyContains a.heap obj "Size" with
          | .error e => (.exn e, a, [])
          | .ok false => (.done false, a, [])
          | .ok true =>
            match pyGet a.heap obj "Size" with
            | .error e => (.exn e, a, [])
            | .ok num_bytes =>
              let collection :=
                if isValidChunkId objid then "chunks" else getCollectionForId objid
              let req := w.dnUrl objid ++ "/" ++ collection ++ "/" ++ objid
              if w.dnDeleteOk objid then
                match getCollE a collection with
                | .error e => (.exn e, a, [Out.dnDelete req])
                | .ok objids =>
                  let (a1, warn1) :=
                    if dictHas objids objid then
                      (setColl a collection (dictDel objids objid), ([] : List Out))
                    else (a, [Out.warn "sweepObj: objid not in collection"])
                  let (a2, warn2) :=
                    if dictHas a1.s3keys s3key then
                      ({ a1 with s3keys := dictDel a1.s3keys s3key }, ([] : List Out))
                    else (a1, [Out.warn "sweepObj: key not in s3keys"])
                  match toIntE num_bytes with
                  | .error e => (.exn e, a2, Out.dnDelete req :: (warn1 ++ warn2))
                  | .ok nb =>
                    (.done true,
                     { a2 with bytes_in_bucket := a2.bytes_in_bucket - nb },
                     Out.dnDelete req :: (warn1 ++ warn2))
              else
                (.done false, a, [Out.dnDelete req, Out.warn "sweepObj: delete error"])

/-- The `[id for id in index if not index[id]["used"]]` comprehensions of
`sweepObjs` (iteration in dict insertion order). -/
def unusedIds (h : Heap) : Dict → Except Err (List String)
  | [] => .ok []
  | (id, v) :: t =>
    match pyGet h v "used" with
    | .error e => .error e
    | .ok u =>
      match unusedIds h t with
      | .error e => .error e
      | .ok rest => .ok (if pyTruthy h u then rest else id :: rest)

/-- Chunk sub-loop of `sweepObjs` (lines 236-238): sweep every chunk of a
swept dataset and collect the ids whose sweep returned True. -/
def sweepChunksLoop (w : World) (a : App) (outs : List Out) :
    List String → SweepR × App × List Out × List String
  | [] => (.done true, a, outs, [])
  | cid :: t =>
    match sweepObj w a cid false with
    | (.exn e, a', o) => (.exn e, a', outs ++ o, [])
    | (.done b, a', o) =>
      match sweepChunksLoop w a' (outs ++ o) t with
      | (r, a'', o'', acc) => (r, a'', o'', if b then cid :: acc else acc)

/-- Loop over swept dataset ids (lines 224-241): sweep the dataset and, on
success, cascade over its `chunks` map, finally deleting the swept chunk
ids from that map. -/
def sweepDatasetsLoop (w : World) (a : App) (outs : List Out) (cnt : Int) :
    List String → SweepR × App × List Out × Int
  | [] => (.done true, a, outs, cnt)
  | dsetid :: t =>
    match dictGet a.datasets dsetid with
    | none => (.exn .keyError, a, outs, cnt)
    | some dset_obj =>
      match sweepObj w a dsetid false with
      | (.exn e, a', o) => (.exn e, a', outs ++ o, cnt)
      | (.done false, a', o) => sweepDatasetsLoop w a' (outs ++ o) cnt t
      | (.done true, a', o) =>
        match pyContains a'.heap dset_obj "chunks" with
        | .error e => (.exn e, a', outs ++ o, cnt)
        | .ok false =>
          sweepDatasetsLoop w a' (outs ++ o ++ [Out.warn "expected chunks key"]) (cnt + 1) t
        | .ok true =>
          match pyGet a'.heap dset_obj "chunks" with
          | .error e => (.exn e, a', outs ++ o, cnt)
          | .ok dset_chunks =>
            match pyKeys a'.heap dset_chunks with
            | .error e => (.exn e, a', outs ++ o, cnt)
            | .ok cids =>
              match sweepChunksLoop w a' (outs ++ o) cids with
              | (.exn e, a'', o'', _) => (.exn e, a'', o'', cnt)
              | (.done _, a'', o'', deleted) =>
                let rec delChunks (h : Heap) : List String → Except Err Heap
                  | [] => .ok h
                  | c :: cs =>
                    match pyDelItem h dset_chunks c with
                    | .error e => .error e
                    | .ok h' => delChunks h' cs
                match delChunks a''.heap deleted with
                | .error e => (.exn e, a'', o'', cnt)
                | .ok h' =>
                  sweepDatasetsLoop w { a'' with heap := h' } o''
                    (cnt + 1 + deleted.length) t

/-- Plain sweep loop for datatypes and groups (lines 250-252, 260-262). -/
def sweepPlainLoop (w : World) (a : App) (outs : List Out) (cnt : Int) :
    List String → SweepR × App × List Out × Int
  | [] => (.done true, a, outs, cnt)
  | id :: t =>
    match sweepObj w a id false with
    | (.exn e, a', o) => (.exn e, a', outs ++ o, cnt)
    | (.done b, a', o) =>
      sweepPlainLoop w a' (outs ++ o) (if b then cnt + 1 else cnt) t

/-- `sweepObjs(app)`, asyncnode.py lines 205-266: sweep unused datasets
(cascading over their chunks), then unused datatypes, then unused groups,
and accumulate `bucket_stats["deleted_count"]`. -/
def sweepObjs (w : World) (a : App) : SweepR × App × List Out :=
  let a :=
    if dictHas a.bucket_stats "deleted_count" then a
    else { a with bucket_stats := dictSet a.bucket_stats "deleted_count" (.int 0) }
  match (dictGet a.bucket_stats "deleted_count").bind (fun v => (toIntE v).toOption) with
  | none => (.exn .typeError, a, [])
  | some cnt0 =>
    match unusedIds a.heap a.datasets with
    | .error e => (.exn e, a, [])
    | .ok dsetIds =>
      match sweepDatasetsLoop w a [] cnt0 dsetIds with
      | (.exn e, a', o, _) => (.exn e, a', o)
      | (.done _, a', o, cnt1) =>
        match unusedIds a'.heap a'.datatypes with
        | .error e => (.exn e, a', o)
        | .ok tIds =>
          match sweepPlainLoop w a' o cnt1 tIds with
          | (.exn e, a'', o', _) => (.exn e, a'', o')
          | (.done _, a'', o', cnt2) =>
            match unusedIds a''.heap a''.groups with
            | .error e => (.exn e, a'', o')
            | .ok gIds =>
              match sweepPlainLoop w a'' o' cnt2 gIds with
              | (.exn e, a3, o'', _) => (.exn e, a3, o'')
              | (.done _, a3, o'', cnt3) =>
                match (dictGet a3.bucket_stats "deleted_count").bind
                    (fun v => (toIntE v).toOption) with
                | none => (.exn .typeError, a3, o'')
                | some old =>
                  (.done true,
                   { a3 with bucket_stats :=
                      dictSet a3.bucket_stats "deleted_count" (.int (old + cnt3)) },
                   o'')

/-! ## Domain events (asyncnode.py lines 271-342) -/

/-- `domainDelete(app, domain)`, lines 271-290: drop the domain record from
`s3keys` (when present) and from `domains`, subtracting its size. -/
def domainDelete (a : App) (domain : String) : Except Err App :=
  if ¬ dictHas a.domains domain then .ok a
  else
    let domain_key := getS3Key domain
    match dictGet a.s3keys domain_key with
    | none =>
      -- num_bytes stays 0
      .ok { a with domains := dictDel a.domains domain }
    | some domain_obj =>
      let a1 := { a with s3keys := dictDel a.s3keys domain_key }
      match pyGet a1.heap domain_obj "Size" with
      | .error e => .error e
      | .ok nbv =>
        match toIntE nbv with
        | .error e => .error e
        | .ok nb =>
          .ok { a1 with
                  bytes_in_bucket := a1.bytes_in_bucket - nb,
                  domains := dictDel a1.domains domain }

/-- `domainCreate(app, domain)`, lines 317-342: stat the domain key, fetch
its JSON for the root id, insert the record into `s3keys` and `domains`
(the same dict, by reference), and add its size to `bytes_in_bucket`.
Store failures propagate (no try/except in the source here). -/
def domainCreate (w : World) (a : App) (domain : String) : Except Err App :=
  let domain_key := getS3Key domain
  if dictHas a.s3keys domain_key then .ok a
  else if dictHas a.domains domain then .ok a
  else
    match w.stats domain_key with
    | none => .error .httpError
    | some st =>
      match w.json domain_key with
      | none => .error .httpError
      | some dj =>
        let (a1, r) := alloc a (statsDict st)
        -- `if rootid:` — falsy root ids (None or empty) are not recorded
        let a2 :=
          match dj.root with
          | some rid =>
            if rid = "" then a1
            else { a1 with heap := heapSet a1.heap r (dictSet (heapGet a1.heap r) "root" (.str rid)) }
          | none => a1
        .ok { a2 with
                bytes_in_bucket := a2.bytes_in_bucket + st.size,
                s3keys := dictSet a2.s3keys domain_key (.ref r),
                domains := dictSet a2.domains domain (.ref r) }

/-- `getDomainForObjid(app, objid)`, lines 346-362: fetch the JSON of the
object (of the parent dataset for a chunk) and read its `domain` key;
fetch errors and a missing key both yield None. -/
def getDomainForObjid (w : World) (objid : String) : Option String :=
  let item := if isValidChunkId objid then getDatasetId objid else objid
  match w.json (getS3Key item) with
  | none => none
  | some j => j.domain

/-- `getRootForObjid(app, objid)`, lines 364-380: fetch the JSON of the
object (of the parent dataset for a chunk); a fetch error or a missing
`root` key yields None, but the successful path reads `obj_json["rootid"]`,
which raises KeyError when that key is absent. -/
def getRootForObjid (w : World) (objid : String) : Except Err (Option String) :=
  let item := if isValidChunkId objid then getDatasetId objid else objid
  match w.json (getS3Key item) with
  | none => .ok none
  | some j =>
    match j.root with
    | none => .ok none
    | some _ =>
      match j.rootid with
      | none => .error .keyError
      | some rid => .ok (some rid)

/-! ## Lazy parent materialisation and the object events
(asyncnode.py lines 382-530) -/

/-- `if k not in v: v[k] = {}` — the lazy-empty-map idiom used for the
per-root collection maps and a dataset's `chunks` map. -/
def ensureKeyDict (a : App) (v : Val) (k : String) : Except Err App :=
  match pyContains a.heap v k with
  | .error e => .error e
  | .ok true => .ok a
  | .ok false =>
    let (a1, n) := alloc a []
    match pySetItem a1.heap v k (.ref n) with
    | .error e => .error e
    | .ok h => .ok { a1 with heap := h }

/-- `if "used" not in v: v["used"] = False` (objUpdate lines 473-474). -/
def ensureKeyFalse (a : App) (v : Val) (k : String) : Except Err App :=
  match pyContains a.heap v k with
  | .error e => .error e
  | .ok true => .ok a
  | .ok false =>
    match pySetItem a.heap v k (.bool false) with
    | .error e => .error e
    | .ok h => .ok { a with heap := h }

/-- The placeholder-or-reuse idiom of lines 393-398 and 419-425: fetch the
record for `key` from `s3keys`, or register a fresh empty dict there. -/
def s3Placeholder (a : App) (key : String) : Val × App :=
  match dictGet a.s3keys key with
  | none =>
    let (a', n) := alloc a []
    (Val.ref n, { a' with s3keys := dictSet a'.s3keys key (.ref n) })
  | some v => (v, a)

/-- Roots branch of `getDomainCollectionForObjId` (lines 389-408): fetch
the root record from `roots`, or materialise a placeholder (reusing an
`s3keys` record if one exists, else a fresh empty dict registered in
`s3keys`), ensure its three collection maps, and register it in `roots`. -/
def getRootObj (a : App) (rootid : String) : Except Err (Val × App) :=
  match dictGet a.roots rootid with
  | some v => .ok (v, a)
  | none =>
    let (root_obj, a1) := s3Placeholder a (getS3Key rootid)
    match ensureKeyDict a1 root_obj "datasets" with
    | .error e => .error e
    | .ok a2 =>
      match ensureKeyDict a2 root_obj "datatypes" with
      | .error e => .error e
      | .ok a3 =>
        match ensureKeyDict a3 root_obj "groups" with
        | .error e => .error e
        | .ok a4 =>
          .ok (root_obj, { a4 with roots := dictSet a4.roots rootid root_obj })

/-- Tail of the chunk branch (lines 429-432): ensure the dataset record
has a `chunks` map and return that map. -/
def chunkColOf (a : App) (dset_obj : Val) : Except Err (Option Val × App) :=
  match ensureKeyDict a dset_obj "chunks" with
  | .error e => .error e
  | .ok a1 =>
    match pyGet a1.heap dset_obj "chunks" with
    | .error e => .error e
    | .ok domain_col => .ok (some domain_col, a1)

/-- `getDomainCollectionForObjId(app, objid)`, lines 382-440: resolve the
root id, materialise missing parents, and return the mutable per-root
collection that should contain `objid` (None on the warn paths). -/
def getDomainCollectionForObjId (w : World) (a : App) (objid : String) :
    Except Err (Option Val × App) :=
  match getRootForObjid w objid with
  | .error e => .error e
  | .ok none => .ok (none, a)
  | .ok (some rootid) =>
    match getRootObj a rootid with
    | .error e => .error e
    | .ok (root_obj, a1) =>
      if isValidChunkId objid then
        match pyContains a1.heap root_obj "datasets" with
        | .error e => .error e
        | .ok false => .ok (none, a1)
        | .ok true =>
          match pyGet a1.heap root_obj "datasets" with
          | .error e => .error e
          | .ok domain_datasets =>
            let dsetid := getDatasetId objid
            match pyContains a1.heap domain_datasets dsetid with
            | .error e => .error e
            | .ok true =>
              match pyGet a1.heap domain_datasets dsetid with
              | .error e => .error e
              | .ok dset_obj => chunkColOf a1 dset_obj
            | .ok false =>
              let (dset_obj, a2) := s3Placeholder a1 (getS3Key dsetid)
              match pySetItem a2.heap domain_datasets dsetid dset_obj with
              | .error e => .error e
              | .ok h => chunkColOf { a2 with heap := h } dset_obj
      else
        let collection := getCollectionForId objid
        match pyContains a1.heap root_obj collection with
        | .error e => .error e
        | .ok false => .ok (none, a1)
        | .ok true =>
          match pyGet a1.heap root_obj collection with
          | .error e => .error e
          | .ok domain_col => .ok (some domain_col, a1)

/-- Lines 471-493 of `objUpdate`: ensure `chunks`/`used` defaults, install
the record in `s3keys`, adjust `bytes_in_bucket`, install in the kind
index and the per-root collection. -/
def objUpdateTail (w : World) (a1 : App) (objid collection s3key : String)
    (s3stats old_size : Val) : Except Err App :=
  match (if collection = "datasets" then ensureKeyDict a1 s3stats "chunks" else .ok a1) with
  | .error e => .error e
  | .ok a2 =>
    match ensureKeyFalse a2 s3stats "used" with
    | .error e => .error e
    | .ok a3 =>
      let a4 := { a3 with s3keys := dictSet a3.s3keys s3key s3stats }
      match toIntE old_size with
      | .error e => .error e
      | .ok osz =>
        match pyGet a4.heap s3stats "Size" with
        | .error e => .error e
        | .ok szv =>
          match toIntE szv with
          | .error e => .error e
          | .ok sz =>
            let a5 := { a4 with bytes_in_bucket := a4.bytes_in_bucket - osz + sz }
            match getCollE a5 collection with
            | .error e => .error e
            | .ok gcoll =>
              let a6 := setColl a5 collection (dictSet gcoll objid s3stats)
              match getDomainCollectionForObjId w a6 objid with
              | .error e => .error e
              | .ok (none, a7) => .ok a7
              | .ok (some domain_col, a7) =>
                match pySetItem a7.heap domain_col objid s3stats with
                | .error e => .error e
                | .ok h => .ok { a7 with heap := h }

/-- Lines 454-493 of `objUpdate`, with the kind name already computed.
NOTE the slip in the source at line 469: inside `for k in old_stats:` the
statement is `s3stats = old_stats[k]` (rebinding the variable to the
ancillary key's VALUE), not `s3stats[k] = old_stats[k]`, although the
comment above it says "copy any ancillary keys to the new obj".  The fold
below embeds the code as written: the last non-stat key's value wins. -/
def objUpdateBody (w : World) (a : App) (objid collection : String) : Except Err App :=
  let s3key := getS3Key objid
  match w.stats s3key with
  | none => .ok a
  | some st =>
    let (a1, n) := alloc a (statsDict st)
    let replaceStep : Except Err (Val × Val) :=
      match dictGet a1.s3keys s3key with
      | none => .ok (Val.ref n, Val.int 0)
      | some old_stats =>
        match pyGet a1.heap old_stats "Size" with
        | .error e => .error e
        | .ok osz =>
          match old_stats with
          | .ref r0 =>
            let folded := (heapGet a1.heap r0).foldl
              (fun acc kv =>
                if kv.1 = "Size" || kv.1 = "ETag" || kv.1 = "LastModified" then acc
                else kv.2) (Val.ref n)
            .ok (folded, osz)
          | _ => .error .typeError
    match replaceStep with
    | .error e => .error e
    | .ok (s3stats, old_size) =>
      objUpdateTail w a1 objid collection s3key s3stats old_size

/-- `objUpdate(app, objid)`, lines 442-493: classify the id (invalid ids
are logged and dropped), then stat and install the record. -/
def objUpdate (w : World) (a : App) (objid : String) : Except Err App :=
  if isValidChunkId objid then objUpdateBody w a objid "chunks"
  else if isValidUuid objid then objUpdateBody w a objid (getCollectionForId objid)
  else .ok a

/-- Lines 506-530 of `objDelete`, with the kind name already computed:
record the id in `deleted_objids`, remove the record from `s3keys`,
subtract its size, delete it from the kind index (an unguarded `del`,
KeyError when absent) and from the per-root collection. -/
def objDeleteBody (w : World) (a0 : App) (objid collection : String) : Except Err App :=
    let a := { a0 with deleted_objids :=
      if objid ∈ a0.deleted_objids then a0.deleted_objids else a0.deleted_objids ++ [objid] }
    let s3key := getS3Key objid
    match dictGet a.s3keys s3key with
    | none => .ok a
    | some s3stats =>
      let a1 := { a with s3keys := dictDel a.s3keys s3key }
      match pyGet a1.heap s3stats "Size" with
      | .error e => .error e
      | .ok szv =>
        match toIntE szv with
        | .error e => .error e
        | .ok sz =>
          let a2 := { a1 with bytes_in_bucket := a1.bytes_in_bucket - sz }
          match getCollE a2 collection with
          | .error e => .error e
          | .ok gcoll =>
            if dictHas gcoll objid then
              let a3 := setColl a2 collection (dictDel gcoll objid)
              match getDomainCollectionForObjId w a3 objid with
              | .error e => .error e
              | .ok (none, a4) => .ok a4
              | .ok (some domain_col, a4) =>
                match pyDelItem a4.heap domain_col objid with
                | .error e => .error e
                | .ok h => .ok { a4 with heap := h }
            else .error .keyError

/-- `objDelete(app, objid)`, lines 495-530: classify the id, then remove
the record from `s3keys`, the kind index and the per-root collection. -/
def objDelete (w : World) (a : App) (objid : String) : Except Err App :=
  if isValidChunkId objid then objDeleteBody w a objid "chunks"
  else if isValidUuid objid then objDeleteBody w a objid (getCollectionForId objid)
  else .ok a

/-! ## The steady-cycle queue drain (asyncnode.py lines 591-625) -/

/-- One pending-queue item, as dispatched by the inner while loop of
`bucketCheck`.  The per-domain dirty bookkeeping (lines 612-623) only
builds a local map whose consumer, the incremental `updateDomainContent`
call, is commented out in the source (line 632), and
`getDomainForObjid` performs no graph mutation, so the bookkeeping has no
effect on the graph and is not threaded here. -/
def applyItem (w : World) (a : App) (it : QItem) : Except Err App :=
  if isValidDomain it.objid then
    if it.action = "DELETE" then domainDelete a it.objid
    else if it.action = "PUT" then domainCreate w a it.objid
    else .ok a
  else if isValidChunkId it.objid || isValidUuid it.objid then
    if it.action = "PUT" then objUpdate w a it.objid
    else if it.action = "DELETE" then objDelete w a it.objid
    else .ok a
  else .ok a

/-- Drain a list of queue items in order, stopping at the first uncaught
exception (there is no try/except around the drain loop in the source). -/
def drainItems (w : World) (a : App) : List QItem → Except Err App
  | [] => .ok a
  | it :: rest =>
    match applyItem w a it with
    | .error e => .error e
    | .ok a' => drainItems w a' rest

/-- One steady-cycle drain of `app["pending_queue"]` to completion. -/
def drainPending (w : World) (a : App) : Except Err App :=
  drainItems w { a with pending_queue := [] } a.pending_queue

/-! ## Publisher (asyncnode.py lines 32-150) -/

/-- Source line 32. -/
def FORCE_CONTENT_LIST_CREATION : Bool := true

/-- Insert into a sorted list of strings (ascending). -/
def insertSorted (x : String) : List String → List String
  | [] => [x]
  | y :: t => if x ≤ y then x :: y :: t else y :: insertSorted x t

/-- Python `list.sort()` on a key list: ascending lexicographic order. -/
def sortStrings : List String → List String
  | [] => []
  | x :: t => insertSorted x (sortStrings t)

/-- Chunk-line loop of `updateDatasetContents` (lines 58-68): one line
`<chunk-id-minus-39-char-prefix> <ETag> <LastModified> <Size>\n` per chunk,
skipping (with a warning) chunk records that lack an ETag. -/
def chunkLines (h : Heap) (chunks : Dict) : List String → Except Err (String × List Out)
  | [] => .ok ("", [])
  | cid :: t =>
    match dictGet chunks cid with
    | none => .error .keyError
    | some chunk_obj =>
      match pyContains h chunk_obj "ETag" with
      | .error e => .error e
      | .ok false =>
        match chunkLines h chunks t with
        | .error e => .error e
        | .ok (txt, outs) =>
          .ok (txt, Out.warn ("chunk_obj for " ++ cid ++ " not initialized") :: outs)
      | .ok true =>
        match pyGet h chunk_obj "ETag" with
        | .error e => .error e
        | .ok et =>
          match pyGet h chunk_obj "LastModified" with
          | .error e => .error e
          | .ok lm =>
            match pyGet h chunk_obj "Size" with
            | .error e => .error e
            | .ok sz =>
              let line := cid.drop 39 ++ " " ++ pyStr et ++ " " ++ pyStr lm ++ " " ++
                pyStr sz ++ "\n"
              match chunkLines h chunks t with
              | .error e => .error e
              | .ok (txt, outs) => .ok (line ++ txt, outs)

/-- `updateDatasetContents(app, domain, dsetid)`, lines 34-73: write the
`<domain>/.<dsetid>.chunks.txt` manifest listing the chunks of the dataset
(looked up in the GLOBAL datasets index) in ascending chunk-id order. -/
def updateDatasetContents (w : World) (a : App) (domain dsetid : String) :
    Except Err (List Out) :=
  match dictGet a.datasets dsetid with
  | none => .ok []
  | some dset_obj =>
    match pyGet a.heap dset_obj "chunks" with
    | .error e => .error e
    | .ok chunksV =>
      match pyLen a.heap chunksV with
      | .error e => .error e
      | .ok len =>
        if len = 0 then .ok []
        else
          let col_s3key := domain.drop 1 ++ "/." ++ dsetid ++ ".chunks.txt"
          if w.s3exists col_s3key && !FORCE_CONTENT_LIST_CREATION then .ok []
          else
            match pyKeys a.heap chunksV with
            | .error e => .error e
            | .ok ids =>
              match chunksV with
              | .ref rc =>
                match chunkLines a.heap (heapGet a.heap rc) (sortStrings ids) with
                | .error e => .error e
                | .ok (txt, warns) =>
                  if w.putOk col_s3key then .ok (warns ++ [Out.putBytes col_s3key txt])
                  else .ok (warns ++ [Out.putFail col_s3key])
              | _ => .error .attrError

/-- Dirty-set filter of `updateDomainContent` (lines 100-112): a collection
is republished only if some updated id is of that kind (a chunk id counts
toward datasets). -/
def collectionIncluded (objs : List String) (collection : String) : Bool :=
  objs.any (fun o =>
    (isValidChunkId o && collection = "datasets") || getCollectionForId o = collection)

/-- Nested chunk-manifest trigger for one member (lines 133-139): dataset
members republish their chunk listing, in incremental mode only when an
updated chunk id names them. -/
def dsOutsFor (w : World) (a : App) (domain : String)
    (objsUpdated : Option (List String)) (oid : String) :
    Except Err (List Out) :=
  if getCollectionForId oid = "datasets" then
    match objsUpdated with
    | none => updateDatasetContents w a domain oid
    | some objs =>
      if objs.any (fun u => isValidChunkId u && getDatasetId u = oid) then
        updateDatasetContents w a domain oid
      else .ok []
  else .ok []

/-- Domain-manifest line loop (lines 127-142): one line
`<objid> <ETag> <LastModified> <Size>\n` per member, and for dataset
members the nested chunk-manifest update. -/
def domainLines (w : World) (a : App) (domain : String)
    (objsUpdated : Option (List String)) (domain_col : Dict) :
    List String → Except Err (String × List Out)
  | [] => .ok ("", [])
  | oid :: t =>
    match dictGet domain_col oid with
    | none => .error .keyError
    | some col_obj =>
      match pyGet a.heap col_obj "ETag" with
      | .error e => .error e
      | .ok et =>
        match pyGet a.heap col_obj "LastModified" with
        | .error e => .error e
        | .ok lm =>
          match pyGet a.heap col_obj "Size" with
          | .error e => .error e
          | .ok sz =>
            let line := oid ++ " " ++ pyStr et ++ " " ++ pyStr lm ++ " " ++ pyStr sz ++ "\n"
            match dsOutsFor w a domain objsUpdated oid with
            | .error e => .error e
            | .ok outs1 =>
              match domainLines w a domain objsUpdated domain_col t with
              | .error e => .error e
              | .ok (txt, outs2) => .ok (line ++ txt, outs1 ++ outs2)

/-- Per-collection loop of `updateDomainContent` (lines 97-148), over
`("groups", "datatypes", "datasets")` in source order. -/
def domainCollections (w : World) (a : App) (domain : String)
    (objsUpdated : Option (List String)) (root_obj : Val) :
    List String → Except Err (List Out)
  | [] => .ok []
  | collection :: rest =>
    let skip : Bool :=
      match objsUpdated with
      | some objs => ! collectionIncluded objs collection
      | none => false
    if skip then domainCollections w a domain objsUpdated root_obj rest
    else
      match pyGet a.heap root_obj collection with
      | .error e => .error e
      | .ok domain_colV =>
        match pyLen a.heap domain_colV with
        | .error e => .error e
        | .ok len =>
          let col_s3key := domain.drop 1 ++ "/." ++ collection ++ ".txt"
          if w.s3exists col_s3key && !FORCE_CONTENT_LIST_CREATION then
            domainCollections w a domain objsUpdated root_obj rest
          else if len > 0 then
            match pyKeys a.heap domain_colV with
            | .error e => .error e
            | .ok ids =>
              match domain_colV with
              | .ref rc =>
                match domainLines w a domain objsUpdated (heapGet a.heap rc)
                    (sortStrings ids) with
                | .error e => .error e
                | .ok (txt, outs) =>
                  let put :=
                    if w.putOk col_s3key then [Out.putBytes col_s3key txt]
                    else [Out.putFail col_s3key]
                  match domainCollections w a domain objsUpdated root_obj rest with
                  | .error e => .error e
                  | .ok outs' => .ok (outs ++ put ++ outs')
              | _ => .error .attrError
          else domainCollections w a domain objsUpdated root_obj rest

/-- `updateDomainContent(app, domain, objs_updated=None)`, lines 76-150:
write the per-domain `.groups.txt` / `.datatypes.txt` / `.datasets.txt`
manifests from the root's collection maps (folder domains and unknown
roots are skipped). -/
def updateDomainContent (w : World) (a : App) (domain : String)
    (objsUpdated : Option (List String)) : Except Err (List Out) :=
  match dictGet a.domains domain with
  | none => .error .keyError
  | some domain_obj =>
    match pyContains a.heap domain_obj "root" with
    | .error e => .error e
    | .ok false => .ok []
    | .ok true =>
      match pyGet a.heap domain_obj "root" with
      | .error e => .error e
      | .ok rootV =>
        match rootV with
        | .str rootid =>
          match dictGet a.roots rootid with
          | none => .ok []
          | some root_obj =>
            domainCollections w a domain objsUpdated root_obj
              ["groups", "datatypes", "datasets"]
        | _ => .ok []

/-! ## Notification endpoints (asyncnode.py lines 679-750) -/

/-- The parts of an inbound HTTP request the handlers read: whether a body
is present and, when the JSON parses, the `objids` member (None when that
key is absent). -/
structure Request where
  has_body : Bool
  objids : Option (List String)

/-- Validation loop shared by both handlers (lines 695-699 and 732-736):
False as soon as some id is neither a valid domain nor a valid UUID or
chunk id. -/
def validateIds : List String → Bool
  | [] => true
  | o :: t => if !isValidDomain o && !isValidUuid o then false else validateIds t

/-- Enqueue loop shared by both handlers (lines 702-708 and 739-745):
append one `{objid, action}` item per non-domain id, in list order. -/
def enqueueIds (action : String) (q : List QItem) : List String → List QItem
  | [] => q
  | o :: t =>
    if isValidDomain o then enqueueIds action q t
    else enqueueIds action (q ++ [⟨o, action⟩]) t

/-- `PUT_Objects(request)`, lines 679-713: 400 on a missing body, a missing
`objids` key, or any invalid id; otherwise enqueue PUT items and answer
200. -/
def PUT_Objects (req : Request) (a : App) : Nat × App :=
  if ¬ req.has_body then (400, a)
  else
    match req.objids with
    | none => (400, a)
    | some ids =>
      if ¬ validateIds ids then (400, a)
      else (200, { a with pending_queue := enqueueIds "PUT" a.pending_queue ids })

/-- `DELETE_Objects(request)`, lines 715-750: same validation as
`PUT_Objects`, enqueueing DELETE items. -/
def DELETE_Objects (req : Request) (a : App) : Nat × App :=
  if ¬ req.has_body then (400, a)
  else
    match req.objids with
    | none => (400, a)
    | some ids =>
      if ¬ validateIds ids then (400, a)
      else (200, { a with pending_queue := enqueueIds "DELETE" a.pending_queue ids })

/-! ## Derived state: the bytes invariant -/

/-- Numeric content of a record's `Size` field, with Python's bool-to-int
coercion (`True` counts as 1 in integer arithmetic). -/
def sizeVal : Val → Int
  | .int n => n
  | .bool b => if b then 1 else 0
  | _ => 0

/-- Size contributed by one `s3keys` record: the numeric value of the
dict's `Size` field, 0 for records (such as lazy placeholders) without a
numeric `Size`. -/
def recSize (h : Heap) (v : Val) : Int :=
  match v with
  | .ref r =>
    match dictGet (heapGet h r) "Size" with
    | some v' => sizeVal v'
    | none => 0
  | _ => 0

/-- Sum of the Size fields over the records of a dict. -/
def sumD (h : Heap) (d : Dict) : Int :=
  (d.map (fun kv => recSize h kv.2)).sum

/-- Sum of the Size fields over all records in `s3keys` (spec invariant
I2's right-hand side). -/
def sumSizes (a : App) : Int := sumD a.heap a.s3keys

/-! ## Well-formed states

A reachable Python state has: dict keys unique within a dict, heap
addresses unique, and every reference below the allocation counter. -/

/-- Every reference in a value is below the allocation bound. -/
def valWF (n : Nat) : Val → Bool
  | .ref r => decide (r < n)
  | _ => true

/-- Every value of a dict is reference-bounded. -/
def dictWF (n : Nat) (d : Dict) : Bool := d.all (fun kv => valWF n kv.2)

/-- Dict keys are pairwise distinct. -/
def keysNodup : Dict → Bool
  | [] => true
  | (k, _) :: t => !(t.any (fun kv => kv.1 = k)) && keysNodup t

/-- Heap addresses are pairwise distinct. -/
def addrsNodup : Heap → Bool
  | [] => true
  | (ad, _) :: t => !(t.any (fun p => p.1 = ad)) && addrsNodup t

/-- Well-formed application state. -/
def appWF (a : App) : Bool :=
  dictWF a.next a.s3keys && keysNodup a.s3keys &&
  dictWF a.next a.domains && keysNodup a.domains &&
  dictWF a.next a.roots && keysNodup a.roots &&
  dictWF a.next a.groups && keysNodup a.groups &&
  dictWF a.next a.datasets && keysNodup a.datasets &&
  dictWF a.next a.datatypes && keysNodup a.datatypes &&
  dictWF a.next a.chunks && keysNodup a.chunks &&
  addrsNodup a.heap &&
  a.heap.all (fun p => decide (p.1 < a.next) && dictWF a.next p.2 && keysNodup p.2)

/-! ## Dict and heap lemmas -/

theorem dictGet_dictSet_self (d : Dict) (k : String) (v : Val) :
    dictGet (dictSet d k v) k = some v := by
  induction d with
  | nil => simp [dictSet, dictGet]
  | cons p t ih =>
    by_cases h : p.1 = k <;> simp [dictSet, dictGet, h, ih]

theorem dictGet_dictSet_ne (d : Dict) (k k' : String) (v : Val) (h : k ≠ k') :
    dictGet (dictSet d k v) k' = dictGet d k' := by
  induction d with
  | nil => simp [dictSet, dictGet, h]
  | cons p t ih =>
    by_cases hp : p.1 = k
    · simp [dictSet, dictGet, hp, h]
    · simp [dictSet, dictGet, hp, ih]

theorem dictGet_dictDel_ne (d : Dict) (k k' : String) (h : k ≠ k')
    (hzd : keysNodup d = true) :
    dictGet (dictDel d k) k' = dictGet d k' := by
  induction d with
  | nil => simp [dictDel]
  | cons p t ih =>
    simp only [keysNodup, Bool.and_eq_true, Bool.not_eq_true'] at hzd
    by_cases hp : p.1 = k
    · have : p.1 ≠ k' := by rw [hp]; exact h
      simp [dictDel, dictGet, hp, this, h]
    · by_cases hq : p.1 = k'
      · simp [dictDel, dictGet, hp, hq, Ne.symm h]
      · simp [dictDel, dictGet, hp, hq, ih hzd.2]

theorem heapGet_heapSet_self (h : Heap) (r : Addr) (d : Dict) :
    heapGet (heapSet h r d) r = d := by
  induction h with
  | nil => simp [heapSet, heapGet]
  | cons p t ih =>
    by_cases hp : p.1 = r <;> simp [heapSet, heapGet, hp, ih]

theorem heapGet_heapSet_ne (h : Heap) (r r' : Addr) (d : Dict) (hne : r ≠ r') :
    heapGet (heapSet h r d) r' = heapGet h r' := by
  induction h with
  | nil => simp [heapSet, heapGet, hne]
  | cons p t ih =>
    by_cases hp : p.1 = r
    · simp [heapSet, heapGet, hp, hne]
    · simp [heapSet, heapGet, hp, ih]

theorem any_key_dictSet (d : Dict) (k k' : String) (v : Val) (h : k' ≠ k) :
    ((dictSet d k v).any fun kv => kv.1 = k') = (d.any fun kv => kv.1 = k') := by
  induction d with
  | nil => simp [dictSet, Ne.symm h]
  | cons p t ih =>
    by_cases hp : p.1 = k
    · simp [dictSet, hp, Ne.symm h]
    · simp [dictSet, hp, ih]

theorem any_key_dictDel (d : Dict) (k : String) (p : String × Val → Bool)
    (h : d.any p = false) : (dictDel d k).any p = false := by
  induction d with
  | nil => simp [dictDel]
  | cons q t ih =>
    simp only [List.any_cons, Bool.or_eq_false_iff] at h
    by_cases hq : q.1 = k
    · simp [dictDel, hq, h.2]
    · simp [dictDel, hq, h.1, ih h.2]

theorem keysNodup_dictSet (d : Dict) (k : String) (v : Val)
    (h : keysNodup d = true) : keysNodup (dictSet d k v) = true := by
  induction d with
  | nil => simp [dictSet, keysNodup]
  | cons p t ih =>
    simp only [keysNodup, Bool.and_eq_true, Bool.not_eq_true'] at h
    by_cases hp : p.1 = k
    · simp only [dictSet, hp, if_pos, keysNodup, Bool.and_eq_true, Bool.not_eq_true']
      constructor
      · rw [← hp]; exact h.1
      · exact h.2
    · simp only [dictSet, hp, if_neg, not_false_iff, keysNodup, Bool.and_eq_true,
        Bool.not_eq_true']
      refine ⟨?_, ih h.2⟩
      rw [any_key_dictSet t k p.1 v hp]
      exact h.1

theorem keysNodup_dictDel (d : Dict) (k : String)
    (h : keysNodup d = true) : keysNodup (dictDel d k) = true := by
  induction d with
  | nil => simp [dictDel, keysNodup]
  | cons p t ih =>
    simp only [keysNodup, Bool.and_eq_true, Bool.not_eq_true'] at h
    by_cases hp : p.1 = k
    · simp only [dictDel, hp, if_pos]
      exact h.2
    · simp only [dictDel, hp, if_neg, not_false_iff, keysNodup, Bool.and_eq_true,
        Bool.not_eq_true']
      exact ⟨any_key_dictDel t k _ h.1, ih h.2⟩

theorem valWF_mono {n m : Nat} (h : n ≤ m) {v : Val} (hv : valWF n v = true) :
    valWF m v = true := by
  cases v with
  | ref r =>
    simp only [valWF, decide_eq_true_eq] at hv ⊢
    exact Nat.lt_of_lt_of_le hv h
  | bool b => simp [valWF]
  | int i => simp [valWF]
  | str s => simp [valWF]

theorem dictWF_mono {n m : Nat} (h : n ≤ m) {d : Dict} (hd : dictWF n d = true) :
    dictWF m d = true := by
  simp only [dictWF, List.all_eq_true] at *
  exact fun kv hm => valWF_mono h (hd kv hm)

theorem dictWF_dictSet {n : Nat} {d : Dict} {k : String} {v : Val}
    (hd : dictWF n d = true) (hv : valWF n v = true) :
    dictWF n (dictSet d k v) = true := by
  induction d with
  | nil => simp [dictSet, dictWF, hv]
  | cons p t ih =>
    simp only [dictWF, List.all_cons, Bool.and_eq_true] at hd
    by_cases hp : p.1 = k
    · simp [dictSet, hp, dictWF, hv, hd.2]
    · have := ih hd.2
      simp only [dictWF, List.all_eq_true] at this hd ⊢
      intro kv hm
      simp only [dictSet, hp, if_neg, not_false_iff, List.mem_cons] at hm
      rcases hm with hm | hm
      · rw [hm]; exact hd.1
      · exact this kv hm

theorem dictWF_dictDel {n : Nat} {d : Dict} {k : String}
    (hd : dictWF n d = true) : dictWF n (dictDel d k) = true := by
  induction d with
  | nil => simp [dictDel, dictWF]
  | cons p t ih =>
    simp only [dictWF, List.all_cons, Bool.and_eq_true] at hd
    by_cases hp : p.1 = k
    · simp only [dictDel, hp, if_pos]
      exact hd.2
    · have := ih hd.2
      simp only [dictWF, List.all_eq_true] at this ⊢
      intro kv hm
      simp only [dictDel, hp, if_neg, not_false_iff, List.mem_cons] at hm
      rcases hm with hm | hm
      · rw [hm]; exact (by simpa [valWF] using hd.1)
      · exact this kv hm

theorem any_addr_heapSet (h : Heap) (r r' : Addr) (d : Dict) (hne : r' ≠ r) :
    ((heapSet h r d).any fun p => p.1 = r') = (h.any fun p => p.1 = r') := by
  induction h with
  | nil => simp [heapSet, Ne.symm hne]
  | cons p t ih =>
    by_cases hp : p.1 = r
    · simp [heapSet, hp, Ne.symm hne]
    · simp [heapSet, hp, ih]

theorem addrsNodup_heapSet (h : Heap) (r : Addr) (d : Dict)
    (hn : addrsNodup h = true) : addrsNodup (heapSet h r d) = true := by
  induction h with
  | nil => simp [heapSet, addrsNodup]
  | cons p t ih =>
    simp only [addrsNodup, Bool.and_eq_true, Bool.not_eq_true'] at hn
    by_cases hp : p.1 = r
    · simp only [heapSet, hp, if_pos, addrsNodup, Bool.and_eq_true, Bool.not_eq_true']
      refine ⟨?_, hn.2⟩
      rw [← hp]; exact hn.1
    · simp only [heapSet, hp, if_neg, not_false_iff, addrsNodup, Bool.and_eq_true,
        Bool.not_eq_true']
      refine ⟨?_, ih hn.2⟩
      rw [any_addr_heapSet t r p.1 d hp]
      exact hn.1

theorem mem_heapSet {h : Heap} {r : Addr} {d : Dict} {p : Addr × Dict}
    (hm : p ∈ heapSet h r d) : p = (r, d) ∨ p ∈ h := by
  induction h with
  | nil => simp only [heapSet, List.mem_singleton] at hm; exact Or.inl hm
  | cons q t ih =>
    by_cases hq : q.1 = r
    · simp only [heapSet, hq, if_pos, List.mem_cons] at hm
      rcases hm with hm | hm
      · exact Or.inl hm
      · exact Or.inr (List.mem_cons_of_mem _ hm)
    · simp only [heapSet, hq, if_neg, not_false_iff, List.mem_cons] at hm
      rcases hm with hm | hm
      · exact Or.inr (by rw [hm]; exact List.mem_cons_self q t)
      · rcases ih hm with hh | hh
        · exact Or.inl hh
        · exact Or.inr (List.mem_cons_of_mem _ hh)

theorem heapGet_mem_or_nil (h : Heap) (r : Addr) :
    (r, heapGet h r) ∈ h ∨ heapGet h r = [] := by
  induction h with
  | nil => simp [heapGet]
  | cons p t ih =>
    by_cases hp : p.1 = r
    · simp only [heapGet, hp, if_pos]
      left
      have : (r, p.2) = p := by rw [← hp]
      rw [this]
      exact List.mem_cons_self p t
    · simp only [heapGet, hp, if_neg, not_false_iff]
      rcases ih with hh | hh
      · exact Or.inl (List.mem_cons_of_mem _ hh)
      · exact Or.inr hh

theorem dictGet_mem {d : Dict} {k : String} {v : Val} (h : dictGet d k = some v) :
    (k, v) ∈ d := by
  induction d with
  | nil => simp [dictGet] at h
  | cons p t ih =>
    by_cases hp : p.1 = k
    · simp only [dictGet, hp, if_pos] at h
      cases h
      have hpe : (k, p.2) = p := by rw [← hp]
      rw [hpe]
      exact List.mem_cons_self p t
    · simp only [dictGet, hp, if_neg, not_false_iff] at h
      exact List.mem_cons_of_mem _ (ih h)

/-- Propositional form of `appWF`, convenient for induction. -/
structure AppInv (a : App) : Prop where
  s3 : dictWF a.next a.s3keys = true
  s3nd : keysNodup a.s3keys = true
  dom : dictWF a.next a.domains = true
  domnd : keysNodup a.domains = true
  rts : dictWF a.next a.roots = true
  rtsnd : keysNodup a.roots = true
  grp : dictWF a.next a.groups = true
  grpnd : keysNodup a.groups = true
  dst : dictWF a.next a.datasets = true
  dstnd : keysNodup a.datasets = true
  dtt : dictWF a.next a.datatypes = true
  dttnd : keysNodup a.datatypes = true
  chk : dictWF a.next a.chunks = true
  chknd : keysNodup a.chunks = true
  hnd : addrsNodup a.heap = true
  hok : ∀ p ∈ a.heap, p.1 < a.next ∧ dictWF a.next p.2 = true ∧ keysNodup p.2 = true

theorem AppInv.heapGet_nd {a : App} (ha : AppInv a) (r : Addr) :
    keysNodup (heapGet a.heap r) = true := by
  rcases heapGet_mem_or_nil a.heap r with hm | hnil
  · exact (ha.hok _ hm).2.2
  · rw [hnil]; rfl

theorem AppInv.heapGet_wf {a : App} (ha : AppInv a) (r : Addr) :
    dictWF a.next (heapGet a.heap r) = true := by
  rcases heapGet_mem_or_nil a.heap r with hm | hnil
  · exact (ha.hok _ hm).2.1
  · rw [hnil]; rfl

theorem dictGet_valWF {n : Nat} {d : Dict} {k : String} {v : Val}
    (hd : dictWF n d = true) (hg : dictGet d k = some v) : valWF n v = true := by
  simp only [dictWF, List.all_eq_true] at hd
  exact hd _ (dictGet_mem hg)

theorem pyGet_valWF {a : App} {v x : Val} {k : String} (ha : AppInv a)
    (hg : pyGet a.heap v k = .ok x) : valWF a.next x = true := by
  cases v with
  | ref r =>
    simp only [pyGet] at hg
    cases hget : dictGet (heapGet a.heap r) k with
    | none => rw [hget] at hg; exact absurd hg (by simp)
    | some y =>
      rw [hget] at hg
      cases hg
      exact dictGet_valWF (ha.heapGet_wf r) hget
  | bool b => exact absurd hg (by simp [pyGet])
  | int i => exact absurd hg (by simp [pyGet])
  | str s => exact absurd hg (by simp [pyGet])

/-! ## Size-sum bookkeeping -/

theorem sumD_nil (h : Heap) : sumD h [] = 0 := rfl

theorem sumD_cons (h : Heap) (p : String × Val) (t : Dict) :
    sumD h (p :: t) = recSize h p.2 + sumD h t := by
  simp [sumD]

theorem sumD_dictSet_new (h : Heap) (d : Dict) (k : String) (v : Val)
    (hget : dictGet d k = none) :
    sumD h (dictSet d k v) = sumD h d + recSize h v := by
  induction d with
  | nil => simp [sumD, dictSet]
  | cons p t ih =>
    by_cases hp : p.1 = k
    · simp [dictGet, hp] at hget
    · simp only [dictGet, hp, if_neg, not_false_iff] at hget
      rw [show dictSet (p :: t) k v = p :: dictSet t k v by simp [dictSet, hp]]
      rw [sumD_cons, sumD_cons, ih hget]
      ring

theorem sumD_dictSet_replace (h : Heap) (d : Dict) (k : String) (v v0 : Val)
    (hget : dictGet d k = some v0) :
    sumD h (dictSet d k v) = sumD h d - recSize h v0 + recSize h v := by
  induction d with
  | nil => simp [dictGet] at hget
  | cons p t ih =>
    by_cases hp : p.1 = k
    · simp only [dictGet, hp, if_pos, Option.some.injEq] at hget
      subst hget
      rw [show dictSet (p :: t) k v = (k, v) :: t by simp [dictSet, hp]]
      rw [sumD_cons, sumD_cons]
      ring
    · simp only [dictGet, hp, if_neg, not_false_iff] at hget
      rw [show dictSet (p :: t) k v = p :: dictSet t k v by simp [dictSet, hp]]
      rw [sumD_cons, sumD_cons, ih hget]
      ring

theorem sumD_dictDel (h : Heap) (d : Dict) (k : String) (v0 : Val)
    (hget : dictGet d k = some v0) :
    sumD h (dictDel d k) = sumD h d - recSize h v0 := by
  induction d with
  | nil => simp [dictGet] at hget
  | cons p t ih =>
    by_cases hp : p.1 = k
    · simp only [dictGet, hp, if_pos, Option.some.injEq] at hget
      subst hget
      rw [show dictDel (p :: t) k = t by simp [dictDel, hp]]
      rw [sumD_cons]
      ring
    · simp only [dictGet, hp, if_neg, not_false_iff] at hget
      rw [show dictDel (p :: t) k = p :: dictDel t k by simp [dictDel, hp]]
      rw [sumD_cons, sumD_cons, ih hget]
      ring

theorem sumD_congr {h h' : Heap} {d : Dict}
    (hrec : ∀ kv ∈ d, recSize h' kv.2 = recSize h kv.2) :
    sumD h' d = sumD h d := by
  induction d with
  | nil => rfl
  | cons p t ih =>
    rw [sumD_cons, sumD_cons, hrec p (List.mem_cons_self p t),
      ih (fun kv hm => hrec kv (List.mem_cons_of_mem _ hm))]

/-- Heap updates that leave the `Size` entry of the stored dict unchanged
do not move any record's size. -/
theorem recSize_heapSet_nonsize {h : Heap} {r : Addr} {d : Dict} (v : Val)
    (hd : dictGet d "Size" = dictGet (heapGet h r) "Size") :
    recSize (heapSet h r d) v = recSize h v := by
  cases v with
  | ref r' =>
    by_cases hr : r' = r
    · subst hr
      simp [recSize, heapGet_heapSet_self, hd]
    · simp [recSize, heapGet_heapSet_ne h r r' d (fun hh => hr hh.symm)]
  | bool b => rfl
  | int i => rfl
  | str s => rfl

/-- Writing at a fresh address does not move any bounded record's size. -/
theorem recSize_heapSet_fresh {h : Heap} {n : Nat} {d : Dict} (v : Val)
    (hv : valWF n v = true) : recSize (heapSet h n d) v = recSize h v := by
  cases v with
  | ref r =>
    simp only [valWF, decide_eq_true_eq] at hv
    simp [recSize, heapGet_heapSet_ne h n r d (fun hh => Nat.ne_of_lt hv hh.symm)]
  | bool b => rfl
  | int i => rfl
  | str s => rfl

/-- The size a record contributes is the integer the code reads from its
`Size` field. -/
theorem recSize_of_pyGet {h : Heap} {v sv : Val} {sz : Int}
    (hg : pyGet h v "Size" = .ok sv) (hi : toIntE sv = .ok sz) :
    recSize h v = sz := by
  cases v with
  | ref r =>
    simp only [pyGet] at hg
    cases hget : dictGet (heapGet h r) "Size" with
    | none => rw [hget] at hg; exact absurd hg (by simp)
    | some y =>
      rw [hget] at hg
      cases hg
      cases sv with
      | int i => simp only [toIntE, Except.ok.injEq] at hi; simp [recSize, hget, sizeVal, hi]
      | bool b => simp only [toIntE, Except.ok.injEq] at hi; simp [recSize, hget, sizeVal, ← hi]
      | str s => exact absurd hi (by simp [toIntE])
      | ref r' => exact absurd hi (by simp [toIntE])
  | bool b => exact absurd hg (by simp [pyGet])
  | int i => exact absurd hg (by simp [pyGet])
  | str s => exact absurd hg (by simp [pyGet])

/-! ## Graph-step relation: heap growth that moves no bounded record -/

/-- One or more state steps that may allocate and may rewrite heap dicts,
but never change the size contribution of any reference that was already
live. -/
def graphStep (a a' : App) : Prop :=
  a.next ≤ a'.next ∧
  ∀ v : Val, valWF a.next v = true → recSize a'.heap v = recSize a.heap v

theorem graphStep_refl (a : App) : graphStep a a :=
  ⟨Nat.le_refl _, fun _ _ => rfl⟩

theorem graphStep_trans {a a1 a2 : App} (h1 : graphStep a a1)
    (h2 : graphStep a1 a2) : graphStep a a2 := by
  refine ⟨Nat.le_trans h1.1 h2.1, fun v hv => ?_⟩
  rw [h2.2 v (valWF_mono h1.1 hv), h1.2 v hv]

theorem graphStep_sumD {a a' : App} (h : graphStep a a') {d : Dict}
    (hd : dictWF a.next d = true) : sumD a'.heap d = sumD a.heap d := by
  apply sumD_congr
  intro kv hm
  simp only [dictWF, List.all_eq_true] at hd
  exact h.2 kv.2 (hd kv hm)

/-! ## Invariance of well-formedness under the primitive state steps -/

/-- A state change that only touches `heap` and `next` keeps the dict
invariants as soon as the new heap is well-formed. -/
theorem AppInv_heapOnly {a : App} {h' : Heap} {n' : Nat} (ha : AppInv a)
    (hn : a.next ≤ n') (hnd : addrsNodup h' = true)
    (hok : ∀ p ∈ h', p.1 < n' ∧ dictWF n' p.2 = true ∧ keysNodup p.2 = true) :
    AppInv { a with heap := h', next := n' } :=
  ⟨dictWF_mono hn ha.s3, ha.s3nd, dictWF_mono hn ha.dom, ha.domnd,
   dictWF_mono hn ha.rts, ha.rtsnd, dictWF_mono hn ha.grp, ha.grpnd,
   dictWF_mono hn ha.dst, ha.dstnd, dictWF_mono hn ha.dtt, ha.dttnd,
   dictWF_mono hn ha.chk, ha.chknd, hnd, hok⟩

theorem AppInv_alloc {a : App} (ha : AppInv a) (d : Dict)
    (hd : dictWF a.next d = true) (hnd : keysNodup d = true) :
    AppInv (alloc a d).1 ∧ graphStep a (alloc a d).1 := by
  constructor
  · refine AppInv_heapOnly ha (Nat.le_succ _) (addrsNodup_heapSet _ _ _ ha.hnd) ?_
    intro p hp
    rcases mem_heapSet hp with hfresh | hm
    · rw [hfresh]
      exact ⟨Nat.lt_succ_self _, dictWF_mono (Nat.le_succ _) hd, hnd⟩
    · obtain ⟨h1, h2, h3⟩ := ha.hok p hm
      exact ⟨Nat.lt_succ_of_lt h1, dictWF_mono (Nat.le_succ _) h2, h3⟩
  · exact ⟨Nat.le_succ _, fun v hv => recSize_heapSet_fresh v hv⟩

/-- After allocation the fresh reference is bounded and the fresh cell
holds exactly the allocated dict. -/
theorem alloc_facts (a : App) (d : Dict) :
    (alloc a d).1.next = a.next + 1 ∧
    heapGet (alloc a d).1.heap (alloc a d).2 = d ∧ (alloc a d).2 = a.next :=
  ⟨rfl, heapGet_heapSet_self _ _ _, rfl⟩

theorem pySetItem_pres {a : App} {v x : Val} {k : String} {h' : Heap}
    (ha : AppInv a) (hv : valWF a.next v = true) (hx : valWF a.next x = true)
    (hk : k ≠ "Size") (hset : pySetItem a.heap v k x = .ok h') :
    AppInv { a with heap := h' } ∧ graphStep a { a with heap := h' } := by
  cases v with
  | ref r =>
    simp only [pySetItem, Except.ok.injEq] at hset
    subst hset
    constructor
    · refine AppInv_heapOnly ha (Nat.le_refl _) (addrsNodup_heapSet _ _ _ ha.hnd) ?_
      intro p hp
      rcases mem_heapSet hp with hfresh | hm
      · rw [hfresh]
        simp only [valWF, decide_eq_true_eq] at hv
        exact ⟨hv, dictWF_dictSet (ha.heapGet_wf r) hx,
          keysNodup_dictSet _ _ _ (ha.heapGet_nd r)⟩
      · exact ha.hok p hm
    · exact ⟨Nat.le_refl _, fun v' _ =>
        recSize_heapSet_nonsize v' (dictGet_dictSet_ne _ k "Size" x hk)⟩
  | bool b => exact absurd hset (by simp [pySetItem])
  | int i => exact absurd hset (by simp [pySetItem])
  | str s => exact absurd hset (by simp [pySetItem])

theorem pyDelItem_pres {a : App} {v : Val} {k : String} {h' : Heap}
    (ha : AppInv a) (hv : valWF a.next v = true)
    (hk : k ≠ "Size") (hdel : pyDelItem a.heap v k = .ok h') :
    AppInv { a with heap := h' } ∧ graphStep a { a with heap := h' } := by
  cases v with
  | ref r =>
    simp only [pyDelItem] at hdel
    by_cases hhas : dictHas (heapGet a.heap r) k
    · rw [if_pos hhas] at hdel
      simp only [Except.ok.injEq] at hdel
      subst hdel
      constructor
      · refine AppInv_heapOnly ha (Nat.le_refl _) (addrsNodup_heapSet _ _ _ ha.hnd) ?_
        intro p hp
        rcases mem_heapSet hp with hfresh | hm
        · rw [hfresh]
          simp only [valWF, decide_eq_true_eq] at hv
          exact ⟨hv, dictWF_dictDel (ha.heapGet_wf r),
            keysNodup_dictDel _ _ (ha.heapGet_nd r)⟩
        · exact ha.hok p hm
      · exact ⟨Nat.le_refl _, fun v' _ =>
          recSize_heapSet_nonsize v'
            (dictGet_dictDel_ne _ k "Size" hk (ha.heapGet_nd r))⟩
    · rw [if_neg hhas] at hdel
      exact absurd hdel (by simp)
  | bool b => exact absurd hdel (by simp [pyDelItem])
  | int i => exact absurd hdel (by simp [pyDelItem])
  | str s => exact absurd hdel (by simp [pyDelItem])

/-- Frame and invariance for the lazy-empty-map idiom: `s3keys` and the
byte counter are untouched, and no live record moves. -/
theorem ensureKeyDict_pres {a a' : App} {v : Val} {k : String}
    (ha : AppInv a) (hv : valWF a.next v = true) (hk : k ≠ "Size")
    (he : ensureKeyDict a v k = .ok a') :
    AppInv a' ∧ graphStep a a' ∧ a'.s3keys = a.s3keys ∧
      a'.bytes_in_bucket = a.bytes_in_bucket := by
  unfold ensureKeyDict at he
  cases hc : pyContains a.heap v k with
  | error e => rw [hc] at he; exact absurd he (by simp)
  | ok b =>
    rw [hc] at he
    cases b with
    | true =>
      simp only [Except.ok.injEq] at he
      subst he
      exact ⟨ha, graphStep_refl a, rfl, rfl⟩
    | false =>
      simp only at he
      obtain ⟨hai, hgs⟩ := AppInv_alloc ha [] rfl rfl
      cases hset : pySetItem (alloc a []).1.heap v k (.ref (alloc a []).2) with
      | error e => rw [hset] at he; exact absurd he (by simp)
      | ok h' =>
        rw [hset] at he
        simp only [Except.ok.injEq] at he
        subst he
        have hv1 : valWF (alloc a []).1.next v = true := valWF_mono hgs.1 hv
        have hx1 : valWF (alloc a []).1.next (Val.ref (alloc a []).2) = true := by
          simp [alloc, valWF]
        obtain ⟨hai2, hgs2⟩ := pySetItem_pres hai hv1 hx1 hk hset
        exact ⟨hai2, graphStep_trans hgs hgs2, rfl, rfl⟩

/-- Same frame facts for `ensureKeyFalse`. -/
theorem ensureKeyFalse_pres {a a' : App} {v : Val} {k : String}
    (ha : AppInv a) (hv : valWF a.next v = true) (hk : k ≠ "Size")
    (he : ensureKeyFalse a v k = .ok a') :
    AppInv a' ∧ graphStep a a' ∧ a'.s3keys = a.s3keys ∧
      a'.bytes_in_bucket = a.bytes_in_bucket := by
  unfold ensureKeyFalse at he
  cases hc : pyContains a.heap v k with
  | error e => rw [hc] at he; exact absurd he (by simp)
  | ok b =>
    rw [hc] at he
    cases b with
    | true =>
      simp only [Except.ok.injEq] at he
      subst he
      exact ⟨ha, graphStep_refl a, rfl, rfl⟩
    | false =>
      simp only at he
      cases hset : pySetItem a.heap v k (.bool false) with
      | error e => rw [hset] at he; exact absurd he (by simp)
      | ok h' =>
        rw [hset] at he
        simp only [Except.ok.injEq] at he
        subst he
        obtain ⟨hai2, hgs2⟩ := pySetItem_pres ha hv (by simp [valWF]) hk hset
        exact ⟨hai2, hgs2, rfl, rfl⟩

/-- The `s3keys` placeholder-or-reuse step shared by `getRootObj` and the
chunk branch of `getDomainCollectionForObjId` (lines 393-398 and 419-425):
it may add one empty record dict to `s3keys`, which contributes size 0. -/
theorem s3Placeholder_pres {a : App} {key : String} {obj : Val} {a1 : App}
    (ha : AppInv a) (hm : s3Placeholder a key = (obj, a1)) :
    AppInv a1 ∧ graphStep a a1 ∧
      sumD a1.heap a1.s3keys = sumD a.heap a.s3keys ∧
      a1.bytes_in_bucket = a.bytes_in_bucket ∧ valWF a1.next obj = true := by
  unfold s3Placeholder at hm
  cases hs3 : dictGet a.s3keys key with
  | some w =>
    rw [hs3] at hm
    simp only [Prod.mk.injEq] at hm
    obtain ⟨rfl, rfl⟩ := hm
    exact ⟨ha, graphStep_refl a, rfl, rfl, dictGet_valWF ha.s3 hs3⟩
  | none =>
    rw [hs3] at hm
    simp only [Prod.mk.injEq] at hm
    obtain ⟨rfl, rfl⟩ := hm
    obtain ⟨hai, hgs⟩ := AppInv_alloc ha [] rfl rfl
    have hrefWF : valWF (alloc a []).1.next (Val.ref (alloc a []).2) = true := by
      simp [alloc, valWF]
    refine ⟨⟨dictWF_dictSet hai.s3 hrefWF, keysNodup_dictSet _ _ _ hai.s3nd,
        hai.dom, hai.domnd, hai.rts, hai.rtsnd, hai.grp, hai.grpnd,
        hai.dst, hai.dstnd, hai.dtt, hai.dttnd, hai.chk, hai.chknd,
        hai.hnd, hai.hok⟩, hgs, ?_, rfl, hrefWF⟩
    have hnew : dictGet (alloc a []).1.s3keys key = none := hs3
    have hzero : recSize (alloc a []).1.heap (Val.ref (alloc a []).2) = 0 := by
      simp [recSize, alloc, heapGet_heapSet_self, dictGet]
    rw [show ({ (alloc a []).1 with
          s3keys := dictSet (alloc a []).1.s3keys key
            (.ref (alloc a []).2) } : App).s3keys =
        dictSet (alloc a []).1.s3keys key (.ref (alloc a []).2) from rfl]
    rw [sumD_dictSet_new _ _ _ _ hnew, hzero]
    have := graphStep_sumD hgs ha.s3
    simp only [alloc] at this ⊢
    rw [this]
    ring

/-- Root-record materialisation keeps the graph well-formed, moves no live
record, adds only a size-0 placeholder to `s3keys` (leaving the size sum
unchanged), and leaves the byte counter alone. -/
theorem getRootObj_pres {a a' : App} {rootid : String} {v : Val}
    (ha : AppInv a) (hr : getRootObj a rootid = .ok (v, a')) :
    AppInv a' ∧ graphStep a a' ∧
      sumD a'.heap a'.s3keys = sumD a.heap a.s3keys ∧
      a'.bytes_in_bucket = a.bytes_in_bucket ∧ valWF a'.next v = true := by
  unfold getRootObj at hr
  cases hroots : dictGet a.roots rootid with
  | some v0 =>
    rw [hroots] at hr
    simp only [Except.ok.injEq, Prod.mk.injEq] at hr
    obtain ⟨rfl, rfl⟩ := hr
    exact ⟨ha, graphStep_refl a, rfl, rfl, dictGet_valWF ha.rts hroots⟩
  | none =>
    rw [hroots] at hr
    simp only at hr
    cases hstep : s3Placeholder a (getS3Key rootid) with
    | mk root_obj a1 =>
      obtain ⟨hai1, hgs1, hsum1, hb1, hvWF1⟩ := s3Placeholder_pres ha hstep
      rw [hstep] at hr
      cases he1 : ensureKeyDict a1 root_obj "datasets" with
      | error e => rw [he1] at hr; exact absurd hr (by simp)
      | ok a2 =>
        rw [he1] at hr
        simp only at hr
        obtain ⟨hai2, hgs2, hs32, hb2⟩ :=
          ensureKeyDict_pres hai1 hvWF1 (by decide) he1
        cases he2 : ensureKeyDict a2 root_obj "datatypes" with
        | error e => rw [he2] at hr; exact absurd hr (by simp)
        | ok a3 =>
          rw [he2] at hr
          simp only at hr
          obtain ⟨hai3, hgs3, hs33, hb3⟩ :=
            ensureKeyDict_pres hai2 (valWF_mono hgs2.1 hvWF1) (by decide) he2
          cases he3 : ensureKeyDict a3 root_obj "groups" with
          | error e => rw [he3] at hr; exact absurd hr (by simp)
          | ok a4 =>
            rw [he3] at hr
            simp only [Except.ok.injEq, Prod.mk.injEq] at hr
            obtain ⟨rfl, rfl⟩ := hr
            obtain ⟨hai4, hgs4, hs34, hb4⟩ :=
              ensureKeyDict_pres hai3 (valWF_mono (Nat.le_trans hgs2.1 hgs3.1) hvWF1)
                (by decide) he3
            have hvWF4 : valWF a4.next root_obj = true :=
              valWF_mono (Nat.le_trans hgs2.1 (Nat.le_trans hgs3.1 hgs4.1)) hvWF1
            refine ⟨⟨hai4.s3, hai4.s3nd, hai4.dom, hai4.domnd,
                dictWF_dictSet hai4.rts hvWF4, keysNodup_dictSet _ _ _ hai4.rtsnd,
                hai4.grp, hai4.grpnd, hai4.dst, hai4.dstnd, hai4.dtt, hai4.dttnd,
                hai4.chk, hai4.chknd, hai4.hnd, hai4.hok⟩,
              graphStep_trans hgs1
                (graphStep_trans hgs2 (graphStep_trans hgs3 hgs4)), ?_, ?_, hvWF4⟩
            · show sumD a4.heap a4.s3keys = sumD a.heap a.s3keys
              rw [hs34, hs33, hs32]
              rw [graphStep_sumD (graphStep_trans hgs2 (graphStep_trans hgs3 hgs4))
                hai1.s3]
              exact hsum1
            · show a4.bytes_in_bucket = a.bytes_in_bucket
              rw [hb4, hb3, hb2, hb1]

theorem getDatasetId_ne_size (s : String) : getDatasetId s ≠ "Size" := by
  intro h
  have hdata := congrArg String.data h
  rw [getDatasetId, String.data_append] at hdata
  have hd : "d-".data = ['d', '-'] := rfl
  have hs : "Size".data = ['S', 'i', 'z', 'e'] := rfl
  rw [hd, hs] at hdata
  simp at hdata

/-- `chunkColOf` only ensures the `chunks` sub-map: `s3keys` and the byte
counter are untouched, no live record moves, and the returned collection
is a bounded value. -/
theorem chunkColOf_pres {a a' : App} {dset_obj : Val} {opt : Option Val}
    (ha : AppInv a) (hv : valWF a.next dset_obj = true)
    (hc : chunkColOf a dset_obj = .ok (opt, a')) :
    AppInv a' ∧ graphStep a a' ∧ a'.s3keys = a.s3keys ∧
      a'.bytes_in_bucket = a.bytes_in_bucket ∧
      (∀ dc, opt = some dc → valWF a'.next dc = true) := by
  unfold chunkColOf at hc
  cases he : ensureKeyDict a dset_obj "chunks" with
  | error e => rw [he] at hc; exact absurd hc (by simp)
  | ok a1 =>
    rw [he] at hc
    simp only at hc
    obtain ⟨hai1, hgs1, hs31, hb1⟩ := ensureKeyDict_pres ha hv (by decide) he
    cases hg : pyGet a1.heap dset_obj "chunks" with
    | error e => rw [hg] at hc; exact absurd hc (by simp)
    | ok dc =>
      rw [hg] at hc
      simp only [Except.ok.injEq, Prod.mk.injEq] at hc
      obtain ⟨rfl, rfl⟩ := hc
      exact ⟨hai1, hgs1, hs31, hb1,
        fun dc' hdc => by cases hdc; exact pyGet_valWF hai1 hg⟩

/-- `getDomainCollectionForObjId` preserves well-formedness, the size sum
over `s3keys` (placeholders contribute 0), and the byte counter; the
returned collection value is bounded. -/
theorem gdc_pres {w : World} {a a' : App} {objid : String} {opt : Option Val}
    (ha : AppInv a)
    (hg : getDomainCollectionForObjId w a objid = .ok (opt, a')) :
    AppInv a' ∧ graphStep a a' ∧
      sumD a'.heap a'.s3keys = sumD a.heap a.s3keys ∧
      a'.bytes_in_bucket = a.bytes_in_bucket ∧
      (∀ dc, opt = some dc → valWF a'.next dc = true) := by
  unfold getDomainCollectionForObjId at hg
  cases hroot : getRootForObjid w objid with
  | error e => rw [hroot] at hg; exact absurd hg (by simp)
  | ok rid? =>
    rw [hroot] at hg
    cases rid? with
    | none =>
      simp only [Except.ok.injEq, Prod.mk.injEq] at hg
      obtain ⟨rfl, rfl⟩ := hg
      exact ⟨ha, graphStep_refl a, rfl, rfl, fun dc hdc => by cases hdc⟩
    | some rootid =>
      simp only at hg
      cases hro : getRootObj a rootid with
      | error e => rw [hro] at hg; exact absurd hg (by simp)
      | ok p =>
        rw [hro] at hg
        cases p with
        | mk root_obj a1 =>
          obtain ⟨hai1, hgs1, hsum1, hb1, hv1⟩ := getRootObj_pres ha hro
          simp only at hg
          by_cases hck : isValidChunkId objid
          · rw [if_pos hck] at hg
            cases hcd : pyContains a1.heap root_obj "datasets" with
            | error e => rw [hcd] at hg; exact absurd hg (by simp)
            | ok b =>
              rw [hcd] at hg
              cases b with
              | false =>
                simp only [Except.ok.injEq, Prod.mk.injEq] at hg
                obtain ⟨rfl, rfl⟩ := hg
                exact ⟨hai1, hgs1, hsum1, hb1, fun dc hdc => by cases hdc⟩
              | true =>
                simp only at hg
                cases hgd : pyGet a1.heap root_obj "datasets" with
                | error e => rw [hgd] at hg; exact absurd hg (by simp)
                | ok domain_datasets =>
                  rw [hgd] at hg
                  simp only at hg
                  have hddWF : valWF a1.next domain_datasets = true :=
                    pyGet_valWF hai1 hgd
                  cases hcd2 : pyContains a1.heap domain_datasets (getDatasetId objid) with
                  | error e => rw [hcd2] at hg; exact absurd hg (by simp)
                  | ok b2 =>
                    rw [hcd2] at hg
                    cases b2 with
                    | true =>
                      simp only at hg
                      cases hgd2 : pyGet a1.heap domain_datasets (getDatasetId objid) with
                      | error e => rw [hgd2] at hg; exact absurd hg (by simp)
                      | ok dset_obj =>
                        rw [hgd2] at hg
                        simp only at hg
                        obtain ⟨haiC, hgsC, hs3C, hbC, hvalC⟩ :=
                          chunkColOf_pres hai1 (pyGet_valWF hai1 hgd2) hg
                        refine ⟨haiC, graphStep_trans hgs1 hgsC, ?_, ?_, hvalC⟩
                        · rw [hs3C, graphStep_sumD hgsC hai1.s3, hsum1]
                        · rw [hbC, hb1]
                    | false =>
                      simp only at hg
                      cases hstep : s3Placeholder a1 (getS3Key (getDatasetId objid)) with
                      | mk dset_obj a2 =>
                        obtain ⟨hai2, hgs2, hsum2, hb2, hv2⟩ := s3Placeholder_pres hai1 hstep
                        rw [hstep] at hg
                        simp only at hg
                        cases hset : pySetItem a2.heap domain_datasets
                            (getDatasetId objid) dset_obj with
                        | error e => rw [hset] at hg; exact absurd hg (by simp)
                        | ok h3 =>
                          rw [hset] at hg
                          simp only at hg
                          obtain ⟨hai3, hgs3⟩ :=
                            pySetItem_pres hai2 (valWF_mono hgs2.1 hddWF) hv2
                              (getDatasetId_ne_size objid) hset
                          obtain ⟨haiC, hgsC, hs3C, hbC, hvalC⟩ :=
                            chunkColOf_pres hai3 hv2 hg
                          refine ⟨haiC,
                            graphStep_trans hgs1 (graphStep_trans hgs2
                              (graphStep_trans hgs3 hgsC)), ?_, ?_, hvalC⟩
                          · rw [hs3C]
                            rw [show ({ a2 with heap := h3 } : App).s3keys = a2.s3keys from rfl]
                            rw [graphStep_sumD (graphStep_trans hgs3 hgsC) hai2.s3]
                            rw [hsum2, hsum1]
                          · rw [hbC]
                            rw [show ({ a2 with heap := h3 } : App).bytes_in_bucket =
                              a2.bytes_in_bucket from rfl]
                            rw [hb2, hb1]
          · rw [if_neg hck] at hg
            cases hcc : pyContains a1.heap root_obj (getCollectionForId objid) with
            | error e => rw [hcc] at hg; exact absurd hg (by simp)
            | ok b =>
              rw [hcc] at hg
              cases b with
              | false =>
                simp only [Except.ok.injEq, Prod.mk.injEq] at hg
                obtain ⟨rfl, rfl⟩ := hg
                exact ⟨hai1, hgs1, hsum1, hb1, fun dc hdc => by cases hdc⟩
              | true =>
                simp only at hg
                cases hgc : pyGet a1.heap root_obj (getCollectionForId objid) with
                | error e => rw [hgc] at hg; exact absurd hg (by simp)
                | ok domain_col =>
                  rw [hgc] at hg
                  simp only [Except.ok.injEq, Prod.mk.injEq] at hg
                  obtain ⟨rfl, rfl⟩ := hg
                  exact ⟨hai1, hgs1, hsum1, hb1,
                    fun dc hdc => by cases hdc; exact pyGet_valWF hai1 hgc⟩

/-- The ancillary-key fold of objUpdate line 467-469 returns either its
initial value or some value of the dict, so it stays bounded. -/
theorem fold_ancillary_valWF {n : Nat} (d : Dict) (init : Val)
    (hinit : valWF n init = true) (hd : dictWF n d = true) :
    valWF n (d.foldl (fun acc kv =>
      if kv.1 = "Size" || kv.1 = "ETag" || kv.1 = "LastModified" then acc
      else kv.2) init) = true := by
  induction d generalizing init with
  | nil => exact hinit
  | cons p t ih =>
    simp only [dictWF, List.all_cons, Bool.and_eq_true] at hd
    simp only [List.foldl_cons]
    by_cases hp : (p.1 = "Size" || p.1 = "ETag" || p.1 = "LastModified") = true
    · rw [if_pos hp]
      exact ih init hinit hd.2
    · rw [if_neg hp]
      exact ih p.2 hd.1 hd.2

/-- A valid UUID or chunk id is not the literal key "Size". -/
theorem valid_ne_size {s : String}
    (h : isValidChunkId s = true ∨ isValidUuid s = true) : s ≠ "Size" := by
  intro heq
  subst heq
  rcases h with h | h
  · exact absurd h (by decide)
  · exact absurd h (by decide)

/-- `setColl` only rewrites one of the four kind indexes. -/
theorem setColl_frame (a : App) (c : String) (d : Dict) :
    (setColl a c d).heap = a.heap ∧ (setColl a c d).next = a.next ∧
    (setColl a c d).s3keys = a.s3keys ∧ (setColl a c d).domains = a.domains ∧
    (setColl a c d).roots = a.roots ∧
    (setColl a c d).bytes_in_bucket = a.bytes_in_bucket ∧
    (setColl a c d).deleted_objids = a.deleted_objids ∧
    (setColl a c d).pending_queue = a.pending_queue ∧
    (setColl a c d).bucket_stats = a.bucket_stats ∧
    (setColl a c d).anonymous_ttl = a.anonymous_ttl := by
  unfold setColl
  split_ifs <;> exact ⟨rfl, rfl, rfl, rfl, rfl, rfl, rfl, rfl, rfl, rfl⟩

/-- Inserting a bounded value into a kind index keeps the state
well-formed. -/
theorem AppInv_setColl_set {a : App} (ha : AppInv a) {c k : String} {v : Val}
    {gcoll : Dict} (hgc : getCollE a c = .ok gcoll) (hv : valWF a.next v = true) :
    AppInv (setColl a c (dictSet gcoll k v)) := by
  unfold getCollE at hgc
  by_cases h1 : c = "groups"
  · subst h1
    rw [if_pos (by decide)] at hgc
    injection hgc with hgc
    subst hgc
    exact ⟨ha.s3, ha.s3nd, ha.dom, ha.domnd, ha.rts, ha.rtsnd,
      dictWF_dictSet ha.grp hv, keysNodup_dictSet _ _ _ ha.grpnd,
      ha.dst, ha.dstnd, ha.dtt, ha.dttnd, ha.chk, ha.chknd, ha.hnd, ha.hok⟩
  · by_cases h2 : c = "datasets"
    · subst h2
      rw [if_pos (by decide)] at hgc
      injection hgc with hgc
      subst hgc
      exact ⟨ha.s3, ha.s3nd, ha.dom, ha.domnd, ha.rts, ha.rtsnd, ha.grp, ha.grpnd,
        dictWF_dictSet ha.dst hv, keysNodup_dictSet _ _ _ ha.dstnd,
        ha.dtt, ha.dttnd, ha.chk, ha.chknd, ha.hnd, ha.hok⟩
    · by_cases h3 : c = "datatypes"
      · subst h3
        rw [if_pos (by decide)] at hgc
        injection hgc with hgc
        subst hgc
        exact ⟨ha.s3, ha.s3nd, ha.dom, ha.domnd, ha.rts, ha.rtsnd, ha.grp, ha.grpnd,
          ha.dst, ha.dstnd, dictWF_dictSet ha.dtt hv,
          keysNodup_dictSet _ _ _ ha.dttnd, ha.chk, ha.chknd, ha.hnd, ha.hok⟩
      · by_cases h4 : c = "chunks"
        · subst h4
          rw [if_pos (by decide)] at hgc
          injection hgc with hgc
          subst hgc
          exact ⟨ha.s3, ha.s3nd, ha.dom, ha.domnd, ha.rts, ha.rtsnd, ha.grp,
            ha.grpnd, ha.dst, ha.dstnd, ha.dtt, ha.dttnd,
            dictWF_dictSet ha.chk hv, keysNodup_dictSet _ _ _ ha.chknd,
            ha.hnd, ha.hok⟩
        · rw [if_neg (by simp [h1, h2, h3, h4])] at hgc
          exact absurd hgc (by simp)

/-- Deleting from a kind index keeps the state well-formed. -/
theorem AppInv_setColl_del {a : App} (ha : AppInv a) {c : String} (k : String)
    {gcoll : Dict} (hgc : getCollE a c = .ok gcoll) :
    AppInv (setColl a c (dictDel gcoll k)) := by
  unfold getCollE at hgc
  by_cases h1 : c = "groups"
  · subst h1
    rw [if_pos (by decide)] at hgc
    injection hgc with hgc
    subst hgc
    exact ⟨ha.s3, ha.s3nd, ha.dom, ha.domnd, ha.rts, ha.rtsnd,
      dictWF_dictDel ha.grp, keysNodup_dictDel _ _ ha.grpnd,
      ha.dst, ha.dstnd, ha.dtt, ha.dttnd, ha.chk, ha.chknd, ha.hnd, ha.hok⟩
  · by_cases h2 : c = "datasets"
    · subst h2
      rw [if_pos (by decide)] at hgc
      injection hgc with hgc
      subst hgc
      exact ⟨ha.s3, ha.s3nd, ha.dom, ha.domnd, ha.rts, ha.rtsnd, ha.grp, ha.grpnd,
        dictWF_dictDel ha.dst, keysNodup_dictDel _ _ ha.dstnd,
        ha.dtt, ha.dttnd, ha.chk, ha.chknd, ha.hnd, ha.hok⟩
    · by_cases h3 : c = "datatypes"
      · subst h3
        rw [if_pos (by decide)] at hgc
        injection hgc with hgc
        subst hgc
        exact ⟨ha.s3, ha.s3nd, ha.dom, ha.domnd, ha.rts, ha.rtsnd, ha.grp, ha.grpnd,
          ha.dst, ha.dstnd, dictWF_dictDel ha.dtt, keysNodup_dictDel _ _ ha.dttnd,
          ha.chk, ha.chknd, ha.hnd, ha.hok⟩
      · by_cases h4 : c = "chunks"
        · subst h4
          rw [if_pos (by decide)] at hgc
          injection hgc with hgc
          subst hgc
          exact ⟨ha.s3, ha.s3nd, ha.dom, ha.domnd, ha.rts, ha.rtsnd, ha.grp,
            ha.grpnd, ha.dst, ha.dstnd, ha.dtt, ha.dttnd,
            dictWF_dictDel ha.chk, keysNodup_dictDel _ _ ha.chknd,
            ha.hnd, ha.hok⟩
        · rw [if_neg (by simp [h1, h2, h3, h4])] at hgc
          exact absurd hgc (by simp)

/-- The installing tail of `objUpdate` re-establishes invariant I2: the
byte counter moves by exactly the installed record's size minus the
replaced record's size, matching the change of the size sum. -/
theorem objUpdateTail_pres {w : World} {a1 a' : App}
    {objid collection s3key : String} {s3stats old_size : Val}
    (ha1 : AppInv a1) (hb1 : a1.bytes_in_bucket = sumSizes a1)
    (hvs : valWF a1.next s3stats = true) (hns : objid ≠ "Size")
    (hold : (dictGet a1.s3keys s3key = none ∧ old_size = Val.int 0) ∨
      (∃ ov, dictGet a1.s3keys s3key = some ov ∧
        (∀ osz : Int, toIntE old_size = Except.ok osz →
          recSize a1.heap ov = osz)))
    (hu : objUpdateTail w a1 objid collection s3key s3stats old_size = .ok a') :
    AppInv a' ∧ a'.bytes_in_bucket = sumSizes a' := by
  unfold objUpdateTail at hu
  -- step 1: the conditional `chunks` default
  have hcond : ∀ {x : App},
      (if collection = "datasets" then ensureKeyDict a1 s3stats "chunks"
        else .ok a1) = .ok x →
      AppInv x ∧ graphStep a1 x ∧ x.s3keys = a1.s3keys ∧
        x.bytes_in_bucket = a1.bytes_in_bucket := by
    intro x hx
    by_cases hcol : collection = "datasets"
    · rw [if_pos hcol] at hx
      exact ensureKeyDict_pres ha1 hvs (by decide) hx
    · rw [if_neg hcol] at hx
      injection hx with hx
      subst hx
      exact ⟨ha1, graphStep_refl a1, rfl, rfl⟩
  cases hE1 : (if collection = "datasets" then ensureKeyDict a1 s3stats "chunks"
      else .ok a1) with
  | error e => rw [hE1] at hu; exact absurd hu (by simp)
  | ok a2 =>
    rw [hE1] at hu
    simp only at hu
    obtain ⟨hai2, hgs2, hs32, hbb2⟩ := hcond hE1
    cases hE2 : ensureKeyFalse a2 s3stats "used" with
    | error e => rw [hE2] at hu; exact absurd hu (by simp)
    | ok a3 =>
      rw [hE2] at hu
      simp only at hu
      obtain ⟨hai3, hgs3, hs33, hbb3⟩ :=
        ensureKeyFalse_pres hai2 (valWF_mono hgs2.1 hvs) (by decide) hE2
      have hgs13 : graphStep a1 a3 := graphStep_trans hgs2 hgs3
      have hvs3 : valWF a3.next s3stats = true := valWF_mono hgs13.1 hvs
      have hs3a : a3.s3keys = a1.s3keys := by rw [hs33, hs32]
      have hba : a3.bytes_in_bucket = a1.bytes_in_bucket := by rw [hbb3, hbb2]
      cases hI1 : toIntE old_size with
      | error e => rw [hI1] at hu; exact absurd hu (by simp)
      | ok osz =>
        rw [hI1] at hu
        simp only at hu
        cases hSZ : pyGet ({ a3 with
            s3keys := dictSet a3.s3keys s3key s3stats } : App).heap s3stats "Size" with
        | error e => rw [hSZ] at hu; exact absurd hu (by simp)
        | ok szv =>
          rw [hSZ] at hu
          simp only at hu
          cases hI2 : toIntE szv with
          | error e => rw [hI2] at hu; exact absurd hu (by simp)
          | ok sz =>
            rw [hI2] at hu
            simp only at hu
            -- the record just installed contributes exactly `sz`
            have hrecNew : recSize a3.heap s3stats = sz := recSize_of_pyGet hSZ hI2
            -- state after install + byte adjustment
            have hai5 : AppInv ({ a3 with
                s3keys := dictSet a3.s3keys s3key s3stats,
                bytes_in_bucket := a3.bytes_in_bucket - osz + sz } : App) :=
              ⟨dictWF_dictSet hai3.s3 hvs3, keysNodup_dictSet _ _ _ hai3.s3nd,
               hai3.dom, hai3.domnd, hai3.rts, hai3.rtsnd, hai3.grp, hai3.grpnd,
               hai3.dst, hai3.dstnd, hai3.dtt, hai3.dttnd, hai3.chk, hai3.chknd,
               hai3.hnd, hai3.hok⟩
            have hsum5 : sumD a3.heap (dictSet a3.s3keys s3key s3stats) =
                sumSizes a1 - osz + sz := by
              rcases hold with ⟨hnone, hzero⟩ | ⟨ov, hsome, hov⟩
              · have hnone3 : dictGet a3.s3keys s3key = none := by rw [hs3a]; exact hnone
                rw [sumD_dictSet_new _ _ _ _ hnone3, hrecNew]
                have hosz0 : osz = 0 := by
                  rw [hzero] at hI1
                  simp [toIntE] at hI1
                  exact hI1.symm
                rw [hs3a, graphStep_sumD hgs13 ha1.s3]
                rw [hosz0]
                show sumSizes a1 + sz = sumSizes a1 - 0 + sz
                ring
              · have hsome3 : dictGet a3.s3keys s3key = some ov := by rw [hs3a]; exact hsome
                rw [sumD_dictSet_replace _ _ _ _ _ hsome3, hrecNew]
                have hovWF : valWF a1.next ov = true := dictGet_valWF ha1.s3 hsome
                have : recSize a3.heap ov = osz := by
                  rw [hgs13.2 ov hovWF]
                  exact hov osz hI1
                rw [this, hs3a, graphStep_sumD hgs13 ha1.s3]
                rfl
            cases hGC : getCollE ({ a3 with
                s3keys := dictSet a3.s3keys s3key s3stats,
                bytes_in_bucket := a3.bytes_in_bucket - osz + sz } : App) collection with
            | error e => rw [hGC] at hu; exact absurd hu (by simp)
            | ok gcoll =>
              rw [hGC] at hu
              simp only at hu
              have hai6 : AppInv (setColl ({ a3 with
                  s3keys := dictSet a3.s3keys s3key s3stats,
                  bytes_in_bucket := a3.bytes_in_bucket - osz + sz } : App) collection
                  (dictSet gcoll objid s3stats)) :=
                AppInv_setColl_set hai5 hGC hvs3
              obtain ⟨hfr1, hfr2, hfr3, hfr4, hfr5, hfr6, hfr7, hfr8, hfr9, hfr10⟩ :=
                setColl_frame ({ a3 with
                  s3keys := dictSet a3.s3keys s3key s3stats,
                  bytes_in_bucket := a3.bytes_in_bucket - osz + sz } : App) collection
                  (dictSet gcoll objid s3stats)
              cases hGD : getDomainCollectionForObjId w
                  (setColl ({ a3 with
                    s3keys := dictSet a3.s3keys s3key s3stats,
                    bytes_in_bucket := a3.bytes_in_bucket - osz + sz } : App) collection
                    (dictSet gcoll objid s3stats)) objid with
              | error e => rw [hGD] at hu; exact absurd hu (by simp)
              | ok p =>
                rw [hGD] at hu
                cases p with
                | mk opt a7 =>
                  obtain ⟨hai7, hgs7, hsum7, hbyte7, hval7⟩ := gdc_pres hai6 hGD
                  have hsum7' : sumD a7.heap a7.s3keys = sumSizes a1 - osz + sz := by
                    rw [hsum7, hfr1, hfr3, hsum5]
                  have hbyte7' : a7.bytes_in_bucket =
                      a1.bytes_in_bucket - osz + sz := by
                    rw [hbyte7, hfr6]
                    show a3.bytes_in_bucket - osz + sz = _
                    rw [hba]
                  cases opt with
                  | none =>
                    simp only [Except.ok.injEq] at hu
                    subst hu
                    refine ⟨hai7, ?_⟩
                    rw [hbyte7', hb1]
                    exact hsum7'.symm
                  | some domain_col =>
                    simp only at hu
                    cases hPS : pySetItem a7.heap domain_col objid s3stats with
                    | error e => rw [hPS] at hu; exact absurd hu (by simp)
                    | ok hheap =>
                      rw [hPS] at hu
                      simp only [Except.ok.injEq] at hu
                      subst hu
                      have hvs7 : valWF a7.next s3stats = true := by
                        apply valWF_mono _ hvs3
                        calc a3.next = (setColl _ collection
                            (dictSet gcoll objid s3stats)).next := by rw [hfr2]
                          _ ≤ a7.next := hgs7.1
                      obtain ⟨hai8, hgs8⟩ :=
                        pySetItem_pres hai7 (hval7 domain_col rfl) hvs7 hns hPS
                      refine ⟨hai8, ?_⟩
                      show a7.bytes_in_bucket =
                        sumD ({ a7 with heap := hheap } : App).heap a7.s3keys
                      rw [show ({ a7 with heap := hheap } : App).heap = hheap from rfl]
                      have : sumD hheap a7.s3keys = sumD a7.heap a7.s3keys := by
                        have h8 := graphStep_sumD hgs8 hai7.s3
                        exact h8
                      rw [this, hsum7', hbyte7', hb1]

/-- `objUpdateBody` preserves well-formedness and invariant I2. -/
theorem objUpdateBody_pres {w : World} {a a' : App} {objid collection : String}
    (ha : AppInv a) (hb : a.bytes_in_bucket = sumSizes a) (hns : objid ≠ "Size")
    (hu : objUpdateBody w a objid collection = .ok a') :
    AppInv a' ∧ a'.bytes_in_bucket = sumSizes a' := by
  unfold objUpdateBody at hu
  simp only at hu
  cases hst : w.stats (getS3Key objid) with
  | none =>
    rw [hst] at hu
    injection hu with h
    subst h
    exact ⟨ha, hb⟩
  | some st =>
    rw [hst] at hu
    simp only at hu
    cases hAl : alloc a (statsDict st) with
    | mk a1 n =>
      rw [hAl] at hu
      simp only at hu
      have hfacts := AppInv_alloc ha (statsDict st) rfl rfl
      rw [hAl] at hfacts
      simp only at hfacts
      obtain ⟨hai1, hgs1⟩ := hfacts
      have h1 : (alloc a (statsDict st)).1 = a1 := by rw [hAl]
      have h2 : (alloc a (statsDict st)).2 = n := by rw [hAl]
      have hs3eq : a1.s3keys = a.s3keys := by rw [← h1]; rfl
      have hbeq : a1.bytes_in_bucket = a.bytes_in_bucket := by rw [← h1]; rfl
      have hnext : a1.next = a.next + 1 := by rw [← h1]; rfl
      have hn : n = a.next := by rw [← h2]; rfl
      have hb1 : a1.bytes_in_bucket = sumSizes a1 := by
        rw [hbeq, hb]
        show sumD a.heap a.s3keys = sumD a1.heap a1.s3keys
        rw [hs3eq, graphStep_sumD hgs1 ha.s3]
      have hrefWF : valWF a1.next (Val.ref n) = true := by
        simp only [valWF, decide_eq_true_eq]
        rw [hn, hnext]
        exact Nat.lt_succ_self _
      cases hold : dictGet a1.s3keys (getS3Key objid) with
      | none =>
        rw [hold] at hu
        simp only at hu
        exact objUpdateTail_pres hai1 hb1 hrefWF hns (Or.inl ⟨hold, rfl⟩) hu
      | some old_stats =>
        rw [hold] at hu
        simp only at hu
        cases hosz : pyGet a1.heap old_stats "Size" with
        | error e => rw [hosz] at hu; exact absurd hu (by simp)
        | ok oszv =>
          rw [hosz] at hu
          cases old_stats with
          | ref r0 =>
            simp only at hu
            refine objUpdateTail_pres hai1 hb1 ?_ hns
              (Or.inr ⟨Val.ref r0, hold, fun osz hI => recSize_of_pyGet hosz hI⟩) hu
            exact fold_ancillary_valWF _ _ hrefWF (hai1.heapGet_wf r0)
          | bool b => exact absurd hu (by simp)
          | int i => exact absurd hu (by simp)
          | str s => exact absurd hu (by simp)

/-- `objUpdate` preserves well-formedness and invariant I2 on every
successful return. -/
theorem objUpdate_pres {w : World} {a a' : App} {objid : String}
    (ha : AppInv a) (hb : a.bytes_in_bucket = sumSizes a)
    (hu : objUpdate w a objid = .ok a') :
    AppInv a' ∧ a'.bytes_in_bucket = sumSizes a' := by
  unfold objUpdate at hu
  by_cases hck : isValidChunkId objid = true
  · rw [if_pos hck] at hu
    exact objUpdateBody_pres ha hb (valid_ne_size (Or.inl hck)) hu
  · rw [if_neg hck] at hu
    by_cases huu : isValidUuid objid = true
    · rw [if_pos huu] at hu
      exact objUpdateBody_pres ha hb (valid_ne_size (Or.inr huu)) hu
    · rw [if_neg huu] at hu
      injection hu with h
      subst h
      exact ⟨ha, hb⟩

/-- `objDeleteBody` preserves well-formedness and invariant I2: removing a
record subtracts exactly its recorded size from both sides. -/
theorem objDeleteBody_pres {w : World} {a0 a' : App} {objid collection : String}
    (ha : AppInv a0) (hb : a0.bytes_in_bucket = sumSizes a0) (hns : objid ≠ "Size")
    (hu : objDeleteBody w a0 objid collection = .ok a') :
    AppInv a' ∧ a'.bytes_in_bucket = sumSizes a' := by
  unfold objDeleteBody at hu
  simp only at hu
  generalize hD : (if objid ∈ a0.deleted_objids then a0.deleted_objids
      else a0.deleted_objids ++ [objid]) = D at hu
  have haD : AppInv ({ a0 with deleted_objids := D } : App) :=
    ⟨ha.s3, ha.s3nd, ha.dom, ha.domnd, ha.rts, ha.rtsnd, ha.grp, ha.grpnd,
     ha.dst, ha.dstnd, ha.dtt, ha.dttnd, ha.chk, ha.chknd, ha.hnd, ha.hok⟩
  cases hget : dictGet a0.s3keys (getS3Key objid) with
  | none =>
    rw [hget] at hu
    injection hu with h
    subst h
    exact ⟨haD, hb⟩
  | some s3stats =>
    rw [hget] at hu
    simp only at hu
    cases hSZ : pyGet a0.heap s3stats "Size" with
    | error e => rw [hSZ] at hu; exact absurd hu (by simp)
    | ok szv =>
      rw [hSZ] at hu
      simp only at hu
      cases hI : toIntE szv with
      | error e => rw [hI] at hu; exact absurd hu (by simp)
      | ok sz =>
        rw [hI] at hu
        simp only at hu
        have hrec : recSize a0.heap s3stats = sz := recSize_of_pyGet hSZ hI
        have hsum1 : sumD a0.heap (dictDel a0.s3keys (getS3Key objid)) =
            sumSizes a0 - sz := by
          rw [sumD_dictDel _ _ _ _ hget, hrec]
          rfl
        cases hGC : getCollE ({ a0 with
            s3keys := dictDel a0.s3keys (getS3Key objid),
            bytes_in_bucket := a0.bytes_in_bucket - sz,
            deleted_objids := D } : App) collection with
        | error e => rw [hGC] at hu; exact absurd hu (by simp)
        | ok gcoll =>
          rw [hGC] at hu
          simp only at hu
          by_cases hhas : dictHas gcoll objid = true
          · rw [if_pos hhas] at hu
            have hai2 : AppInv ({ a0 with
                s3keys := dictDel a0.s3keys (getS3Key objid),
                bytes_in_bucket := a0.bytes_in_bucket - sz,
                deleted_objids := D } : App) :=
              ⟨dictWF_dictDel ha.s3, keysNodup_dictDel _ _ ha.s3nd,
               ha.dom, ha.domnd, ha.rts, ha.rtsnd, ha.grp, ha.grpnd,
               ha.dst, ha.dstnd, ha.dtt, ha.dttnd, ha.chk, ha.chknd,
               ha.hnd, ha.hok⟩
            have hai3 := AppInv_setColl_del hai2 objid hGC
            obtain ⟨hfr1, hfr2, hfr3, hfr4, hfr5, hfr6, hfr7, hfr8, hfr9, hfr10⟩ :=
              setColl_frame ({ a0 with
                s3keys := dictDel a0.s3keys (getS3Key objid),
                bytes_in_bucket := a0.bytes_in_bucket - sz,
                deleted_objids := D } : App) collection (dictDel gcoll objid)
            cases hGD : getDomainCollectionForObjId w
                (setColl ({ a0 with
                  s3keys := dictDel a0.s3keys (getS3Key objid),
                  bytes_in_bucket := a0.bytes_in_bucket - sz,
                  deleted_objids := D } : App) collection (dictDel gcoll objid))
                objid with
            | error e => rw [hGD] at hu; exact absurd hu (by simp)
            | ok p =>
              rw [hGD] at hu
              cases p with
              | mk opt a4 =>
                obtain ⟨hai4, hgs4, hsum4, hbyte4, hval4⟩ := gdc_pres hai3 hGD
                have hsum4' : sumD a4.heap a4.s3keys = sumSizes a0 - sz := by
                  rw [hsum4, hfr1, hfr3]
                  exact hsum1
                have hbyte4' : a4.bytes_in_bucket = a0.bytes_in_bucket - sz := by
                  rw [hbyte4, hfr6]
                cases opt with
                | none =>
                  simp only [Except.ok.injEq] at hu
                  subst hu
                  refine ⟨hai4, ?_⟩
                  rw [hbyte4', hb]
                  exact hsum4'.symm
                | some domain_col =>
                  simp only at hu
                  cases hPD : pyDelItem a4.heap domain_col objid with
                  | error e => rw [hPD] at hu; exact absurd hu (by simp)
                  | ok hheap =>
                    rw [hPD] at hu
                    simp only [Except.ok.injEq] at hu
                    subst hu
                    obtain ⟨hai5, hgs5⟩ :=
                      pyDelItem_pres hai4 (hval4 domain_col rfl) hns hPD
                    refine ⟨hai5, ?_⟩
                    show a4.bytes_in_bucket =
                      sumD ({ a4 with heap := hheap } : App).heap a4.s3keys
                    rw [show ({ a4 with heap := hheap } : App).heap = hheap from rfl]
                    rw [graphStep_sumD hgs5 hai4.s3, hsum4', hbyte4', hb]
          · rw [if_neg hhas] at hu
            exact absurd hu (by simp)

/-- `objDelete` preserves well-formedness and invariant I2 on every
successful return. -/
theorem objDelete_pres {w : World} {a a' : App} {objid : String}
    (ha : AppInv a) (hb : a.bytes_in_bucket = sumSizes a)
    (hu : objDelete w a objid = .ok a') :
    AppInv a' ∧ a'.bytes_in_bucket = sumSizes a' := by
  unfold objDelete at hu
  by_cases hck : isValidChunkId objid = true
  · rw [if_pos hck] at hu
    exact objDeleteBody_pres ha hb (valid_ne_size (Or.inl hck)) hu
  · rw [if_neg hck] at hu
    by_cases huu : isValidUuid objid = true
    · rw [if_pos huu] at hu
      exact objDeleteBody_pres ha hb (valid_ne_size (Or.inr huu)) hu
    · rw [if_neg huu] at hu
      injection hu with h
      subst h
      exact ⟨ha, hb⟩

/-- `domainDelete` preserves well-formedness and invariant I2. -/
theorem domainDelete_pres {a a' : App} {domain : String}
    (ha : AppInv a) (hb : a.bytes_in_bucket = sumSizes a)
    (hu : domainDelete a domain = .ok a') :
    AppInv a' ∧ a'.bytes_in_bucket = sumSizes a' := by
  unfold domainDelete at hu
  by_cases hhas : dictHas a.domains domain = true
  · rw [if_neg (by simp [hhas])] at hu
    simp only at hu
    cases hget : dictGet a.s3keys (getS3Key domain) with
    | none =>
      rw [hget] at hu
      injection hu with h
      subst h
      exact ⟨⟨ha.s3, ha.s3nd, dictWF_dictDel ha.dom, keysNodup_dictDel _ _ ha.domnd,
        ha.rts, ha.rtsnd, ha.grp, ha.grpnd, ha.dst, ha.dstnd, ha.dtt, ha.dttnd,
        ha.chk, ha.chknd, ha.hnd, ha.hok⟩, hb⟩
    | some domain_obj =>
      rw [hget] at hu
      simp only at hu
      cases hSZ : pyGet a.heap domain_obj "Size" with
      | error e => rw [hSZ] at hu; exact absurd hu (by simp)
      | ok nbv =>
        rw [hSZ] at hu
        simp only at hu
        cases hI : toIntE nbv with
        | error e => rw [hI] at hu; exact absurd hu (by simp)
        | ok nb =>
          rw [hI] at hu
          simp only [Except.ok.injEq] at hu
          subst hu
          refine ⟨⟨dictWF_dictDel ha.s3, keysNodup_dictDel _ _ ha.s3nd,
            dictWF_dictDel ha.dom, keysNodup_dictDel _ _ ha.domnd,
            ha.rts, ha.rtsnd, ha.grp, ha.grpnd, ha.dst, ha.dstnd, ha.dtt, ha.dttnd,
            ha.chk, ha.chknd, ha.hnd, ha.hok⟩, ?_⟩
          show a.bytes_in_bucket - nb =
            sumD a.heap (dictDel a.s3keys (getS3Key domain))
          rw [sumD_dictDel _ _ _ _ hget, recSize_of_pyGet hSZ hI, hb]
          rfl
  · rw [if_pos (by simp [hhas])] at hu
    injection hu with h
    subst h
    exact ⟨ha, hb⟩

/-- `domainCreate` preserves well-formedness and invariant I2: the new
domain record adds its stat size to both sides. -/
theorem domainCreate_pres {w : World} {a a' : App} {domain : String}
    (ha : AppInv a) (hb : a.bytes_in_bucket = sumSizes a)
    (hu : domainCreate w a domain = .ok a') :
    AppInv a' ∧ a'.bytes_in_bucket = sumSizes a' := by
  unfold domainCreate at hu
  by_cases h1 : dictHas a.s3keys (getS3Key domain) = true
  · rw [if_pos h1] at hu
    injection hu with h
    subst h
    exact ⟨ha, hb⟩
  · rw [if_neg h1] at hu
    by_cases h2 : dictHas a.domains domain = true
    · rw [if_pos h2] at hu
      injection hu with h
      subst h
      exact ⟨ha, hb⟩
    · rw [if_neg h2] at hu
      cases hst : w.stats (getS3Key domain) with
      | none => rw [hst] at hu; exact absurd hu (by simp)
      | some st =>
        rw [hst] at hu
        simp only at hu
        cases hjs : w.json (getS3Key domain) with
        | none => rw [hjs] at hu; exact absurd hu (by simp)
        | some dj =>
          rw [hjs] at hu
          simp only at hu
          cases hAl : alloc a (statsDict st) with
          | mk a1 r =>
            rw [hAl] at hu
            simp only at hu
            have hfacts := AppInv_alloc ha (statsDict st) rfl rfl
            rw [hAl] at hfacts
            simp only at hfacts
            obtain ⟨hai1, hgs1⟩ := hfacts
            have hA1 : (alloc a (statsDict st)).1 = a1 := by rw [hAl]
            have hA2 : (alloc a (statsDict st)).2 = r := by rw [hAl]
            have hs3eq : a1.s3keys = a.s3keys := by rw [← hA1]; rfl
            have hdomeq : a1.domains = a.domains := by rw [← hA1]; rfl
            have hbeq : a1.bytes_in_bucket = a.bytes_in_bucket := by rw [← hA1]; rfl
            have hnext : a1.next = a.next + 1 := by rw [← hA1]; rfl
            have hr : r = a.next := by rw [← hA2]; rfl
            have hcell : heapGet a1.heap r = statsDict st := by
              rw [← hA1, ← hA2]
              exact heapGet_heapSet_self _ _ _
            have hrWF : valWF a1.next (Val.ref r) = true := by
              simp only [valWF, decide_eq_true_eq]
              rw [hr, hnext]
              exact Nat.lt_succ_self _
            -- uniform finish over the optional `root` write
            have final : ∀ a2 : App, AppInv a2 → graphStep a1 a2 →
                a2.s3keys = a1.s3keys → a2.domains = a1.domains →
                a2.bytes_in_bucket = a1.bytes_in_bucket →
                recSize a2.heap (Val.ref r) = st.size →
                (Except.ok ({ a2 with
                  bytes_in_bucket := a2.bytes_in_bucket + st.size,
                  s3keys := dictSet a2.s3keys (getS3Key domain) (.ref r),
                  domains := dictSet a2.domains domain (.ref r) } : App) :
                    Except Err App) = Except.ok a' →
                AppInv a' ∧ a'.bytes_in_bucket = sumSizes a' := by
              intro a2 hai2 hgs2 hs3 hdm hbt hrec hok
              injection hok with hok
              subst hok
              have hrWF2 : valWF a2.next (Val.ref r) = true :=
                valWF_mono hgs2.1 hrWF
              refine ⟨⟨dictWF_dictSet hai2.s3 hrWF2,
                keysNodup_dictSet _ _ _ hai2.s3nd,
                dictWF_dictSet hai2.dom hrWF2, keysNodup_dictSet _ _ _ hai2.domnd,
                hai2.rts, hai2.rtsnd, hai2.grp, hai2.grpnd, hai2.dst, hai2.dstnd,
                hai2.dtt, hai2.dttnd, hai2.chk, hai2.chknd, hai2.hnd, hai2.hok⟩, ?_⟩
              show a2.bytes_in_bucket + st.size =
                sumD a2.heap (dictSet a2.s3keys (getS3Key domain) (.ref r))
              have hnone : dictGet a2.s3keys (getS3Key domain) = none := by
                rw [hs3, hs3eq]
                simp only [dictHas, Option.isSome_iff_exists] at h1
                cases hx : dictGet a.s3keys (getS3Key domain) with
                | none => rfl
                | some y => exact absurd ⟨y, hx⟩ h1
              rw [sumD_dictSet_new _ _ _ _ hnone, hrec, hs3, hs3eq]
              rw [graphStep_sumD (graphStep_trans hgs1 hgs2) ha.s3]
              rw [hbt, hbeq, hb]
              rfl
            cases hroot : dj.root with
            | none =>
              rw [hroot] at hu
              simp only at hu
              exact final a1 hai1 (graphStep_refl a1) rfl rfl rfl
                (by rw [recSize, hcell]; rfl) hu
            | some rid =>
              rw [hroot] at hu
              simp only at hu
              by_cases hrid : rid = ""
              · rw [if_pos hrid] at hu
                exact final a1 hai1 (graphStep_refl a1) rfl rfl rfl
                  (by rw [recSize, hcell]; rfl) hu
              · rw [if_neg hrid] at hu
                have hset : pySetItem a1.heap (Val.ref r) "root" (.str rid) =
                    .ok (heapSet a1.heap r (dictSet (heapGet a1.heap r) "root"
                      (.str rid))) := rfl
                obtain ⟨hai2, hgs2⟩ :=
                  pySetItem_pres hai1 hrWF (by rfl) (by decide) hset
                refine final _ hai2 hgs2 rfl rfl rfl ?_ hu
                show recSize (heapSet a1.heap r (dictSet (heapGet a1.heap r) "root"
                  (.str rid))) (Val.ref r) = st.size
                rw [recSize, heapGet_heapSet_self,
                  dictGet_dictSet_ne _ "root" "Size" _ (by decide), hcell]
                rfl

/-- One queue item application preserves well-formedness and I2. -/
theorem applyItem_pres {w : World} {a a' : App} {it : QItem}
    (ha : AppInv a) (hb : a.bytes_in_bucket = sumSizes a)
    (hap : applyItem w a it = .ok a') :
    AppInv a' ∧ a'.bytes_in_bucket = sumSizes a' := by
  unfold applyItem at hap
  by_cases h1 : isValidDomain it.objid = true
  · rw [if_pos h1] at hap
    by_cases h2 : it.action = "DELETE"
    · rw [if_pos h2] at hap
      exact domainDelete_pres ha hb hap
    · rw [if_neg h2] at hap
      by_cases h3 : it.action = "PUT"
      · rw [if_pos h3] at hap
        exact domainCreate_pres ha hb hap
      · rw [if_neg h3] at hap
        injection hap with h
        subst h
        exact ⟨ha, hb⟩
  · rw [if_neg h1] at hap
    by_cases h2 : (isValidChunkId it.objid || isValidUuid it.objid) = true
    · rw [if_pos h2] at hap
      by_cases h3 : it.action = "PUT"
      · rw [if_pos h3] at hap
        exact objUpdate_pres ha hb hap
      · rw [if_neg h3] at hap
        by_cases h4 : it.action = "DELETE"
        · rw [if_pos h4] at hap
          exact objDelete_pres ha hb hap
        · rw [if_neg h4] at hap
          injection hap with h
          subst h
          exact ⟨ha, hb⟩
    · rw [if_neg h2] at hap
      injection hap with h
      subst h
      exact ⟨ha, hb⟩

/-- Draining any item list preserves well-formedness and I2. -/
theorem drainItems_pres {w : World} {items : List QItem} {a a' : App}
    (ha : AppInv a) (hb : a.bytes_in_bucket = sumSizes a)
    (hd : drainItems w a items = .ok a') :
    AppInv a' ∧ a'.bytes_in_bucket = sumSizes a' := by
  induction items generalizing a with
  | nil =>
    unfold drainItems at hd
    injection hd with h
    subst h
    exact ⟨ha, hb⟩
  | cons it rest ih =>
    unfold drainItems at hd
    cases hap : applyItem w a it with
    | error e => rw [hap] at hd; exact absurd hd (by simp)
    | ok a1 =>
      rw [hap] at hd
      obtain ⟨h1, h2⟩ := applyItem_pres ha hb hap
      exact ih h1 h2 hd

/-- The Bool well-formedness check implies the propositional one. -/
theorem appWF_AppInv {a : App} (h : appWF a = true) : AppInv a := by
  simp only [appWF, Bool.and_eq_true] at h
  obtain ⟨⟨⟨⟨⟨⟨⟨⟨⟨⟨⟨⟨⟨⟨⟨hs3, hs3nd⟩, hdom⟩, hdomnd⟩, hrts⟩, hrtsnd⟩, hgrp⟩,
    hgrpnd⟩, hdst⟩, hdstnd⟩, hdtt⟩, hdttnd⟩, hchk⟩, hchknd⟩, hhnd⟩, hall⟩ := h
  refine ⟨hs3, hs3nd, hdom, hdomnd, hrts, hrtsnd, hgrp, hgrpnd, hdst, hdstnd,
    hdtt, hdttnd, hchk, hchknd, hhnd, ?_⟩
  intro p hp
  simp only [List.all_eq_true] at hall
  have hthis := hall p hp
  simp only [Bool.and_eq_true, decide_eq_true_eq] at hthis
  exact ⟨hthis.1.1, hthis.1.2, hthis.2⟩

/-! ## Claim C1 -/

/-- C1: after any sequence of PUT/DELETE notification events has been
drained to completion by the reconciliation loop (objUpdate, objDelete,
domainCreate, domainDelete applied in queue order, via `applyItem` /
`drainItems`), `bytes_in_bucket` equals the sum of the Size fields over
all records in `s3keys` — invariant I2 is preserved from any well-formed
state in which it holds. -/
theorem claim_C1 (w : World) (a a' : App) (items : List QItem)
    (hwf : appWF a = true)
    (hinv : a.bytes_in_bucket = sumSizes a)
    (hdrain : drainItems w a items = .ok a') :
    a'.bytes_in_bucket = sumSizes a' :=
  (drainItems_pres (appWF_AppInv hwf) hinv hdrain).2

/-- Concrete drain scenario: one fresh group PUT into an empty graph. -/
def c1gid : String := "g-aaaaaaaaaaaaaaaaaaaaaaaaaaaaaaaaaaaa"

def c1w : World where
  stats := fun k => if k = c1gid then some ⟨"etag1", 100, 10⟩ else none
  json := fun _ => none
  s3exists := fun _ => false
  putOk := fun _ => true
  dnDeleteOk := fun _ => false
  dnUrl := fun _ => "dn:"
  now := 1000

def c1app : App := { anonymous_ttl := 60 }

def c1drained : App :=
  ((drainItems c1w c1app [⟨c1gid, "PUT"⟩]).toOption).getD c1app

/-- Witness for C1 at a concrete input. -/
theorem claim_C1_witness :
    appWF c1app = true ∧ c1app.bytes_in_bucket = sumSizes c1app ∧
    drainItems c1w c1app [⟨c1gid, "PUT"⟩] = .ok c1drained ∧
    c1drained.bytes_in_bucket = sumSizes c1drained :=
  ⟨by decide, by decide, by rfl,
   claim_C1 c1w c1app c1drained [⟨c1gid, "PUT"⟩] (by decide) (by decide) (by rfl)⟩

/-! ## Claims C2, C3 and C10: the sweeper -/

/-- C2: when the object's record is present in `s3keys` and
`now - LastModified < anonymous_ttl`, a non-force `sweepObj` returns the
skipped outcome (False) without issuing a DN delete and without mutating
`s3keys`, any kind index, or `bytes_in_bucket` — the state and output
trace are exactly unchanged. -/
theorem claim_C2 (w : World) (a : App) (objid : String) (r : Addr) (lm : Int)
    (hrec : dictGet a.s3keys (getS3Key objid) = some (.ref r))
    (hlm : dictGet (heapGet a.heap r) "LastModified" = some (.int lm))
    (httl : w.now - lm < a.anonymous_ttl) :
    sweepObj w a objid false = (.done false, a, []) := by
  unfold sweepObj
  simp only []
  rw [hrec]
  simp only []
  have hc : pyContains a.heap (Val.ref r) "LastModified" = .ok true := by
    simp [pyContains, dictHas, hlm]
  rw [hc]
  simp only []
  have hg : pyGet a.heap (Val.ref r) "LastModified" = .ok (.int lm) := by
    simp [pyGet, hlm]
  rw [hg]
  simp only [Bool.false_eq_true, if_false, toIntE]
  rw [show decide (w.now - lm < a.anonymous_ttl) = true from decide_eq_true httl]

/-- C3: when the DN delete request issued by `sweepObj` fails with an HTTP
error, `sweepObj` logs the error and returns the failed outcome with the
graph exactly as it was: the returned state is the input state, and the
output trace holds the issued DN delete request and the warning only. -/
theorem claim_C3 (w : World) (a : App) (objid : String) (r : Addr)
    (lm sz : Int) (force : Bool)
    (hrec : dictGet a.s3keys (getS3Key objid) = some (.ref r))
    (hlm : dictGet (heapGet a.heap r) "LastModified" = some (.int lm))
    (hsz : dictGet (heapGet a.heap r) "Size" = some (.int sz))
    (hgate : force = true ∨ a.anonymous_ttl ≤ w.now - lm)
    (hfail : w.dnDeleteOk objid = false) :
    sweepObj w a objid force =
      (.done false, a,
       [Out.dnDelete (w.dnUrl objid ++ "/" ++
          (if isValidChunkId objid then "chunks" else getCollectionForId objid) ++
          "/" ++ objid),
        Out.warn "sweepObj: delete error"]) := by
  unfold sweepObj
  simp only []
  rw [hrec]
  simp only []
  have hc : pyContains a.heap (Val.ref r) "LastModified" = .ok true := by
    simp [pyContains, dictHas, hlm]
  rw [hc]
  simp only []
  have hg : pyGet a.heap (Val.ref r) "LastModified" = .ok (.int lm) := by
    simp [pyGet, hlm]
  rw [hg]
  simp only []
  have hgateEq : (if force then (Except.ok false : Except Err Bool)
      else match toIntE (.int lm) with
        | .error e => .error e
        | .ok lmv => .ok (decide (w.now - lmv < a.anonymous_ttl))) =
      Except.ok false := by
    rcases hgate with hf | hle
    · rw [hf, if_pos rfl]
    · have : force = false ∨ force = true := by cases force <;> simp
      rcases this with hf | hf
      · rw [hf]
        simp only [Bool.false_eq_true, if_false, toIntE]
        rw [decide_eq_false (by omega)]
      · rw [hf, if_pos rfl]
  rw [hgateEq]
  simp only []
  have hc2 : pyContains a.heap (Val.ref r) "Size" = .ok true := by
    simp [pyContains, dictHas, hsz]
  rw [hc2]
  simp only []
  have hg2 : pyGet a.heap (Val.ref r) "Size" = .ok (.int sz) := by
    simp [pyGet, hsz]
  rw [hg2]
  simp only [hfail, Bool.false_eq_true, if_false]

/-- The pieces of the state `sweepObj` never writes: the heap (hence every
root's per-collection maps and every dataset's chunks map, which live in
heap dicts), `domains`, `roots` and the bookkeeping fields. -/
def sweepFrame (a a' : App) : Prop :=
  a'.heap = a.heap ∧ a'.next = a.next ∧ a'.domains = a.domains ∧
  a'.roots = a.roots ∧ a'.deleted_objids = a.deleted_objids ∧
  a'.pending_queue = a.pending_queue ∧ a'.bucket_stats = a.bucket_stats ∧
  a'.anonymous_ttl = a.anonymous_ttl

theorem getColl_setColl_ne (a : App) (c c' : String) (d : Dict) (h : c ≠ c') :
    getColl (setColl a c' d) c = getColl a c := by
  unfold setColl getColl
  split_ifs <;> simp_all

/-- C10: for every objid and force flag, `sweepObj` leaves `domains`,
`roots`, and the whole heap — hence every root's groups/datasets/datatypes
maps and every dataset's chunks map — unchanged; besides `s3keys` and
`bytes_in_bucket` it can write only the kind index of the object's own
collection, so a swept object's record may remain referenced from its
root's per-collection map, and chunk entries are removed from a dataset's
chunks map only by the `sweepObjs` cascade, never by `sweepObj` itself. -/
theorem claim_C10 (w : World) (a : App) (objid : String) (force : Bool) :
    sweepFrame a (sweepObj w a objid force).2.1 ∧
    ∀ c : String,
      c ≠ (if isValidChunkId objid then "chunks" else getCollectionForId objid) →
      getColl (sweepObj w a objid force).2.1 c = getColl a c := by
  have hrefl : sweepFrame a a := ⟨rfl, rfl, rfl, rfl, rfl, rfl, rfl, rfl⟩
  unfold sweepObj
  simp only []
  cases hget : dictGet a.s3keys (getS3Key objid) with
  | none =>
    simp only []
    exact ⟨hrefl, fun c hc => trivial⟩
  | some obj =>
    simp only []
    cases hcon : pyContains a.heap obj "LastModified" with
    | error e =>
      simp only []
      exact ⟨hrefl, fun c hc => trivial⟩
    | ok b =>
      cases b with
      | false =>
        simp only []
        exact ⟨hrefl, fun c hc => trivial⟩
      | true =>
        simp only []
        cases hpg : pyGet a.heap obj "LastModified" with
        | error e =>
          simp only []
          exact ⟨hrefl, fun c hc => trivial⟩
        | ok lastModified =>
          simp only []
          cases hgate : (if force = true then (Except.ok false : Except Err Bool)
              else match toIntE lastModified with
                | .error e => .error e
                | .ok lmv => .ok (decide (w.now - lmv < a.anonymous_ttl))) with
          | error e =>
            simp only []
            exact ⟨hrefl, fun c hc => trivial⟩
          | ok bg =>
            cases bg with
            | true =>
              simp only []
              exact ⟨hrefl, fun c hc => trivial⟩
            | false =>
              simp only []
              cases hcs : pyContains a.heap obj "Size" with
              | error e =>
                simp only []
                exact ⟨hrefl, fun c hc => trivial⟩
              | ok b2 =>
                cases b2 with
                | false =>
                  simp only []
                  exact ⟨hrefl, fun c hc => trivial⟩
                | true =>
                  simp only []
                  cases hps : pyGet a.heap obj "Size" with
                  | error e =>
                    simp only []
                    exact ⟨hrefl, fun c hc => trivial⟩
                  | ok num_bytes =>
                    simp only []
                    by_cases hdn : w.dnDeleteOk objid = true
                    · rw [if_pos hdn]
                      cases hgc : getCollE a (if isValidChunkId objid = true
                          then "chunks" else getCollectionForId objid) with
                      | error e =>
                        simp only []
                        exact ⟨hrefl, fun c hc => trivial⟩
                      | ok objids =>
                        simp only []
                        by_cases hh1 : dictHas objids objid = true
                        · rw [if_pos hh1]
                          simp only []
                          by_cases hh2 : dictHas (setColl a
                              (if isValidChunkId objid = true then "chunks"
                                else getCollectionForId objid)
                              (dictDel objids objid)).s3keys (getS3Key objid) = true
                          · rw [if_pos hh2]
                            simp only []
                            obtain ⟨f1, f2, f3, f4, f5, f6, f7, f8, f9, f10⟩ :=
                              setColl_frame a (if isValidChunkId objid = true
                                then "chunks" else getCollectionForId objid)
                                (dictDel objids objid)
                            have hframe : sweepFrame a
                                ({ (setColl a (if isValidChunkId objid = true
                                    then "chunks" else getCollectionForId objid)
                                    (dictDel objids objid)) with
                                  s3keys := dictDel (setColl a
                                    (if isValidChunkId objid = true then "chunks"
                                      else getCollectionForId objid)
                                    (dictDel objids objid)).s3keys
                                    (getS3Key objid) } : App) :=
                              ⟨f1, f2, f4, f5, f7, f8, f9, f10⟩
                            have hcoll : ∀ c : String,
                                c ≠ (if isValidChunkId objid = true then "chunks"
                                  else getCollectionForId objid) →
                                ∀ (d : Dict) (bb : Int), getColl ({ (setColl a
                                  (if isValidChunkId objid = true then "chunks"
                                    else getCollectionForId objid)
                                  (dictDel objids objid)) with
                                      s3keys := d,
                                      bytes_in_bucket := bb } : App) c =
                                  getColl a c := by
                              intro c hc d bb
                              have h1 : getColl ({ (setColl a
                                  (if isValidChunkId objid = true then "chunks"
                                    else getCollectionForId objid)
                                  (dictDel objids objid)) with
                                      s3keys := d,
                                      bytes_in_bucket := bb } : App) c =
                                  getColl (setColl a (if isValidChunkId objid = true
                                    then "chunks" else getCollectionForId objid)
                                    (dictDel objids objid)) c := rfl
                              rw [h1]
                              exact getColl_setColl_ne a c _ _ hc
                            cases hI : toIntE num_bytes with
                            | error e =>
                              simp only []
                              exact ⟨hframe, fun c hc => hcoll c hc _ _⟩
                            | ok nb =>
                              simp only []
                              exact ⟨⟨hframe.1, hframe.2.1, hframe.2.2.1,
                                hframe.2.2.2.1, hframe.2.2.2.2.1,
                                hframe.2.2.2.2.2.1, hframe.2.2.2.2.2.2.1,
                                hframe.2.2.2.2.2.2.2⟩, fun c hc => hcoll c hc _ _⟩
                          · rw [if_neg hh2]
                            simp only []
                            obtain ⟨f1, f2, f3, f4, f5, f6, f7, f8, f9, f10⟩ :=
                              setColl_frame a (if isValidChunkId objid = true
                                then "chunks" else getCollectionForId objid)
                                (dictDel objids objid)
                            have hframe : sweepFrame a (setColl a
                                (if isValidChunkId objid = true then "chunks"
                                  else getCollectionForId objid)
                                (dictDel objids objid)) :=
                              ⟨f1, f2, f4, f5, f7, f8, f9, f10⟩
                            have hcoll : ∀ c : String,
                                c ≠ (if isValidChunkId objid = true then "chunks"
                                  else getCollectionForId objid) →
                                ∀ bb : Int, getColl ({ (setColl a
                                  (if isValidChunkId objid = true then "chunks"
                                    else getCollectionForId objid)
                                  (dictDel objids objid)) with
                                    bytes_in_bucket := bb } : App) c = getColl a c := by
                              intro c hc bb
                              have h1 : getColl ({ (setColl a
                                  (if isValidChunkId objid = true then "chunks"
                                    else getCollectionForId objid)
                                  (dictDel objids objid)) with
                                    bytes_in_bucket := bb } : App) c =
                                  getColl (setColl a (if isValidChunkId objid = true
                                    then "chunks" else getCollectionForId objid)
                                    (dictDel objids objid)) c := rfl
                              rw [h1]
                              exact getColl_setColl_ne a c _ _ hc
                            cases hI : toIntE num_bytes with
                            | error e =>
                              simp only []
                              exact ⟨hframe, fun c hc => hcoll c hc _⟩
                            | ok nb =>
                              simp only []
                              exact ⟨⟨hframe.1, hframe.2.1, hframe.2.2.1,
                                hframe.2.2.2.1, hframe.2.2.2.2.1,
                                hframe.2.2.2.2.2.1, hframe.2.2.2.2.2.2.1,
                                hframe.2.2.2.2.2.2.2⟩, fun c hc => hcoll c hc _⟩
                        · rw [if_neg hh1]
                          simp only []
                          by_cases hh2 : dictHas a.s3keys (getS3Key objid) = true
                          · rw [if_pos hh2]
                            simp only []
                            cases hI : toIntE num_bytes with
                            | error e =>
                              simp only []
                              exact ⟨⟨rfl, rfl, rfl, rfl, rfl, rfl, rfl, rfl⟩,
                                fun c hc => rfl⟩
                            | ok nb =>
                              simp only []
                              exact ⟨⟨rfl, rfl, rfl, rfl, rfl, rfl, rfl, rfl⟩,
                                fun c hc => rfl⟩
                          · rw [if_neg hh2]
                            simp only []
                            cases hI : toIntE num_bytes with
                            | error e =>
                              simp only []
                              exact ⟨hrefl, fun c hc => trivial⟩
                            | ok nb =>
                              simp only []
                              exact ⟨⟨rfl, rfl, rfl, rfl, rfl, rfl, rfl, rfl⟩,
                                fun c hc => rfl⟩
                    · rw [if_neg hdn]
                      simp only []
                      exact ⟨hrefl, fun c hc => trivial⟩

/-- Concrete sweep scenario: a young group record. -/
def c2gid : String := "g-bbbbbbbbbbbbbbbbbbbbbbbbbbbbbbbbbbbb"

def c2app : App :=
  { heap := [(0, [("ETag", .str "e2"), ("LastModified", .int 100),
      ("Size", .int 5), ("used", .bool false)])],
    next := 1,
    s3keys := [(c2gid, .ref 0)],
    groups := [(c2gid, .ref 0)],
    bytes_in_bucket := 5,
    anonymous_ttl := 60 }

def c2w : World where
  stats := fun _ => none
  json := fun _ => none
  s3exists := fun _ => false
  putOk := fun _ => true
  dnDeleteOk := fun _ => true
  dnUrl := fun _ => "dn:"
  now := 120

/-- Witness for C2 at a concrete input. -/
theorem claim_C2_witness :
    dictGet c2app.s3keys (getS3Key c2gid) = some (.ref 0) ∧
    dictGet (heapGet c2app.heap 0) "LastModified" = some (.int 100) ∧
    c2w.now - 100 < c2app.anonymous_ttl ∧
    sweepObj c2w c2app c2gid false = (.done false, c2app, []) :=
  ⟨by decide, by decide, by decide,
   claim_C2 c2w c2app c2gid 0 100 (by decide) (by decide) (by decide)⟩

/-- Concrete sweep scenario: an old group record whose DN delete fails. -/
def c3gid : String := "g-cccccccccccccccccccccccccccccccccccc"

def c3app : App :=
  { heap := [(0, [("ETag", .str "e3"), ("LastModified", .int 100),
      ("Size", .int 7), ("used", .bool false)])],
    next := 1,
    s3keys := [(c3gid, .ref 0)],
    groups := [(c3gid, .ref 0)],
    bytes_in_bucket := 7,
    anonymous_ttl := 60 }

def c3w : World where
  stats := fun _ => none
  json := fun _ => none
  s3exists := fun _ => false
  putOk := fun _ => true
  dnDeleteOk := fun _ => false
  dnUrl := fun _ => "dn:"
  now := 1000

/-- Witness for C3 at a concrete input. -/
theorem claim_C3_witness :
    dictGet c3app.s3keys (getS3Key c3gid) = some (.ref 0) ∧
    dictGet (heapGet c3app.heap 0) "LastModified" = some (.int 100) ∧
    dictGet (heapGet c3app.heap 0) "Size" = some (.int 7) ∧
    c3app.anonymous_ttl ≤ c3w.now - 100 ∧
    c3w.dnDeleteOk c3gid = false ∧
    sweepObj c3w c3app c3gid false =
      (.done false, c3app,
       [Out.dnDelete (c3w.dnUrl c3gid ++ "/" ++
          (if isValidChunkId c3gid then "chunks" else getCollectionForId c3gid) ++
          "/" ++ c3gid),
        Out.warn "sweepObj: delete error"]) :=
  ⟨by decide, by decide, by decide, by decide, by decide,
   claim_C3 c3w c3app c3gid 0 100 7 false (by decide) (by decide) (by decide)
     (Or.inr (by decide)) (by decide)⟩

/-! ## Claim C5: the notification endpoints -/

theorem validateIds_eq (l : List String) :
    validateIds l = !(l.any fun o => !isValidDomain o && !isValidUuid o) := by
  induction l with
  | nil => rfl
  | cons o t ih =>
    by_cases h : (!isValidDomain o && !isValidUuid o) = true
    · simp [validateIds, h]
    · simp only [Bool.not_eq_true'] at h
      simp only [validateIds, List.any_cons]
      rw [if_neg (by simp [h]), ih]
      simp [h]

theorem enqueueIds_eq (act : String) (q : List QItem) (l : List String) :
    enqueueIds act q l =
      q ++ (l.filter (fun o => !isValidDomain o)).map (fun o => ⟨o, act⟩) := by
  induction l generalizing q with
  | nil => simp [enqueueIds]
  | cons o t ih =>
    by_cases h : isValidDomain o = true
    · rw [show enqueueIds act q (o :: t) = enqueueIds act q t from by
        simp [enqueueIds, h]]
      rw [ih]
      simp [List.filter, h]
    · rw [show enqueueIds act q (o :: t) = enqueueIds act (q ++ [⟨o, act⟩]) t from by
        simp [enqueueIds, h]]
      rw [ih]
      simp [List.filter, h]

/-- C5: `PUT /objects` (and `DELETE /objects`, same validation) answers
400 when the body is missing, when the `objids` key is missing, or when
some listed id is neither a valid domain nor a valid UUID/chunk id, and in
every 400 case `pending_queue` is returned unchanged; for a valid batch,
each non-domain id is appended to `pending_queue` in list order as
`{objid, PUT}` (respectively `{objid, DELETE}`) while domain ids are
silently ignored. -/
theorem claim_C5 (req : Request) (a : App) :
    PUT_Objects req a =
      (if ¬ req.has_body then (400, a)
       else match req.objids with
        | none => (400, a)
        | some ids =>
          if ids.any (fun o => !isValidDomain o && !isValidUuid o) then (400, a)
          else (200, { a with
            pending_queue := a.pending_queue ++
              (ids.filter (fun o => !isValidDomain o)).map
                (fun o => ⟨o, "PUT"⟩) })) ∧
    DELETE_Objects req a =
      (if ¬ req.has_body then (400, a)
       else match req.objids with
        | none => (400, a)
        | some ids =>
          if ids.any (fun o => !isValidDomain o && !isValidUuid o) then (400, a)
          else (200, { a with
            pending_queue := a.pending_queue ++
              (ids.filter (fun o => !isValidDomain o)).map
                (fun o => ⟨o, "DELETE"⟩) })) := by
  constructor
  · unfold PUT_Objects
    by_cases hb : req.has_body
    · cases hobj : req.objids with
      | none => simp [hb, hobj]
      | some ids =>
        simp only [hb, hobj, not_true, if_false]
        rw [validateIds_eq, enqueueIds_eq]
        by_cases hv : (ids.any fun o => !isValidDomain o && !isValidUuid o) = true
        · simp [hv]
        · simp [hv]
    · simp [hb]
  · unfold DELETE_Objects
    by_cases hb : req.has_body
    · cases hobj : req.objids with
      | none => simp [hb, hobj]
      | some ids =>
        simp only [hb, hobj, not_true, if_false]
        rw [validateIds_eq, enqueueIds_eq]
        by_cases hv : (ids.any fun o => !isValidDomain o && !isValidUuid o) = true
        · simp [hv]
        · simp [hv]
    · simp [hb]

/-! ## Claims C4 and C9: the replace-path slip in objUpdate

Source line 469 reads `s3stats = old_stats[k]` inside
`for k in old_stats:` although the comment above it says "copy any
ancillary keys to the new obj"; the intended statement is
`s3stats[k] = old_stats[k]`.  Since every record `objUpdate` installs
carries the ancillary key `used` (a bool), any replace rebinds `s3stats`
to that bool and the next `in` test raises TypeError, so no replace ever
copies extras or adjusts `bytes_in_bucket`, and the drain loop (which has
no try/except) dies. -/

def c4gid : String := "g-dddddddddddddddddddddddddddddddddddd"

def c4w : World where
  stats := fun k => if k = c4gid then some ⟨"etag-new", 200, 12⟩ else none
  json := fun _ => none
  s3exists := fun _ => false
  putOk := fun _ => true
  dnDeleteOk := fun _ => false
  dnUrl := fun _ => "dn:"
  now := 0

/-- The graph state after a first PUT of the group: its record carries
ETag/LastModified/Size and the ancillary key `used`. -/
def c4app : App :=
  { heap := [(0, [("ETag", .str "etag-old"), ("LastModified", .int 100),
      ("Size", .int 5), ("used", .bool false)])],
    next := 1, s3keys := [(c4gid, .ref 0)], groups := [(c4gid, .ref 0)],
    bytes_in_bucket := 5, anonymous_ttl := 60 }

/-- C4: the claim — that a replacing `objUpdate` copies every ancillary
key of the old record into the new one and adjusts `bytes_in_bucket` by
new minus old size — FAILS on the code: at this replace input the source's
`s3stats = old_stats[k]` slip (line 469) rebinds `s3stats` to the old
record's `used` value and the call raises TypeError, installing nothing. -/
theorem claim_C4 : objUpdate c4w c4app c4gid = .error .typeError := by rfl

def c9gid : String := "g-eeeeeeeeeeeeeeeeeeeeeeeeeeeeeeeeeeee"

def c9w : World where
  stats := fun k => if k = c9gid then some ⟨"etag9", 100, 10⟩ else none
  json := fun _ => none
  s3exists := fun _ => false
  putOk := fun _ => true
  dnDeleteOk := fun _ => false
  dnUrl := fun _ => "dn:"
  now := 0

def c9app : App := { anonymous_ttl := 60 }

/-- C9: the claim — that one steady-cycle queue drain survives every
queue content, logging per-object failures and continuing — FAILS on the
code: draining `[PUT g, PUT g]` from an empty graph processes the first
PUT fine, but the second takes the replace path of `objUpdate` and raises
an uncaught TypeError (the line-469 slip), killing the drain, even though
each single item drains fine. -/
theorem claim_C9 :
    (drainItems c9w c9app [⟨c9gid, "PUT"⟩]).toOption.isSome = true ∧
    drainItems c9w c9app [⟨c9gid, "PUT"⟩, ⟨c9gid, "PUT"⟩] = .error .typeError :=
  ⟨by rfl, by rfl⟩

/-! ## Publisher correctness: sorting facts and declarative manifests -/

/-- Ascending insertion yields a permutation of consing the element. -/
theorem insertSorted_perm (x : String) (l : List String) :
    (insertSorted x l).Perm (x :: l) := by
  induction l with
  | nil => exact List.Perm.refl _
  | cons y t ih =>
    unfold insertSorted
    by_cases h : x ≤ y
    · rw [if_pos h]
    · rw [if_neg h]
      exact (ih.cons y).trans (List.Perm.swap x y t)

/-- `list.sort()` returns a permutation of the key list. -/
theorem sortStrings_perm (l : List String) : (sortStrings l).Perm l := by
  induction l with
  | nil => exact List.Perm.refl _
  | cons x t ih => exact (insertSorted_perm x (sortStrings t)).trans (ih.cons x)

/-- Ascending insertion preserves sortedness. -/
theorem insertSorted_sorted (x : String) {l : List String}
    (h : List.Sorted (· ≤ ·) l) :
    List.Sorted (· ≤ ·) (insertSorted x l) := by
  induction l with
  | nil => simp [insertSorted]
  | cons y t ih =>
    rw [List.sorted_cons] at h
    obtain ⟨hy, ht⟩ := h
    unfold insertSorted
    by_cases hxy : x ≤ y
    · rw [if_pos hxy, List.sorted_cons]
      refine ⟨?_, ?_⟩
      · intro b hb
        rcases List.mem_cons.1 hb with rfl | hb
        · exact hxy
        · exact le_trans hxy (hy b hb)
      · rw [List.sorted_cons]
        exact ⟨hy, ht⟩
    · rw [if_neg hxy, List.sorted_cons]
      refine ⟨?_, ih ht⟩
      intro b hb
      rcases List.mem_cons.1 ((insertSorted_perm x t).mem_iff.1 hb) with rfl | hb
      · exact le_of_not_le hxy
      · exact hy b hb

/-- `list.sort()` sorts ascending. -/
theorem sortStrings_sorted (l : List String) :
    List.Sorted (· ≤ ·) (sortStrings l) := by
  induction l with
  | nil => simp [sortStrings]
  | cons x t ih => exact insertSorted_sorted x ih

/-- Well-formed chunk-map entry: the value is a record reference and, when
the record carries an ETag, it also carries LastModified and Size. -/
def chunkRecWF (h : Heap) (chunks : Dict) (cid : String) : Bool :=
  match dictGet chunks cid with
  | some (Val.ref r) =>
    !(dictHas (heapGet h r) "ETag") ||
      ((dictGet (heapGet h r) "LastModified").isSome &&
       (dictGet (heapGet h r) "Size").isSome)
  | _ => false

/-- Well-formed collection-map entry: the value is a record reference
carrying ETag, LastModified and Size. -/
def recWF (h : Heap) (col : Dict) (oid : String) : Bool :=
  match dictGet col oid with
  | some (Val.ref r) =>
    (dictGet (heapGet h r) "ETag").isSome &&
    (dictGet (heapGet h r) "LastModified").isSome &&
    (dictGet (heapGet h r) "Size").isSome
  | _ => false

/-- Modelled from the spec (chunk manifests): one line
`<chunk-id-minus-39-char-prefix> <ETag> <LastModified> <Size>\n` per listed
chunk, chunks without an ETag contributing nothing. -/
def specChunkManifest (h : Heap) (chunks : Dict) : List String → String
  | [] => ""
  | cid :: t =>
    (match dictGet chunks cid with
     | some (Val.ref r) =>
       match dictGet (heapGet h r) "ETag", dictGet (heapGet h r) "LastModified",
           dictGet (heapGet h r) "Size" with
       | some et, some lm, some sz =>
         cid.drop 39 ++ " " ++ pyStr et ++ " " ++ pyStr lm ++ " " ++
           pyStr sz ++ "\n"
       | _, _, _ => ""
     | _ => "") ++ specChunkManifest h chunks t

/-- Modelled from the spec (chunk manifests): the warning logged for each
listed chunk whose record lacks an ETag. -/
def specChunkWarns (h : Heap) (chunks : Dict) : List String → List Out
  | [] => []
  | cid :: t =>
    (match dictGet chunks cid with
     | some (Val.ref r) =>
       if dictHas (heapGet h r) "ETag" then []
       else [Out.warn ("chunk_obj for " ++ cid ++ " not initialized")]
     | _ => []) ++ specChunkWarns h chunks t

/-- The chunk-line loop produces exactly the declarative manifest and the
declarative warning list, in listed order. -/
theorem chunkLines_spec (h : Heap) (chunks : Dict) (ids : List String)
    (hwf : ∀ cid ∈ ids, chunkRecWF h chunks cid = true) :
    chunkLines h chunks ids =
      .ok (specChunkManifest h chunks ids, specChunkWarns h chunks ids) := by
  induction ids with
  | nil => rfl
  | cons cid t ih =>
    have hc := hwf cid (List.mem_cons_self cid t)
    have hrest := ih (fun c hcm => hwf c (List.mem_cons_of_mem cid hcm))
    unfold chunkRecWF at hc
    unfold chunkLines specChunkManifest specChunkWarns
    cases hv : dictGet chunks cid with
    | none =>
      rw [hv] at hc
      simp at hc
    | some v =>
      rw [hv] at hc
      cases v with
      | bool b => simp at hc
      | int n => simp at hc
      | str s => simp at hc
      | ref r =>
        have hc' : (!(dictHas (heapGet h r) "ETag") ||
            ((dictGet (heapGet h r) "LastModified").isSome &&
             (dictGet (heapGet h r) "Size").isSome)) = true := hc
        simp only [pyContains]
        cases he : dictHas (heapGet h r) "ETag" with
        | false =>
          have hetn : dictGet (heapGet h r) "ETag" = none := by
            unfold dictHas at he
            cases hx : dictGet (heapGet h r) "ETag"
            · rfl
            · rw [hx] at he; simp at he
          rw [hetn, hrest]
          rfl
        | true =>
          rw [he, Bool.not_true, Bool.false_or, Bool.and_eq_true] at hc'
          obtain ⟨hlm, hsz⟩ := hc'
          simp only [pyGet]
          cases het : dictGet (heapGet h r) "ETag" with
          | none =>
            unfold dictHas at he
            rw [het] at he
            simp at he
          | some et =>
            cases hlmv : dictGet (heapGet h r) "LastModified" with
            | none => rw [hlmv] at hlm; simp at hlm
            | some lm =>
              cases hszv : dictGet (heapGet h r) "Size" with
              | none => rw [hszv] at hsz; simp at hsz
              | some sz =>
                rw [hrest]
                rfl

/-- C7: for a dataset (present in the global datasets index) whose chunks
map is non-empty, with well-formed chunk records and a writable store, the
publisher writes the `<domain-without-slash>/.<dsetid>.chunks.txt` manifest
whose bytes are exactly one `<suffix> <ETag> <LastModified> <Size>\n` line
per chunk in ascending chunk-id order (suffix dropping the 39-character
dataset prefix), chunks lacking an ETag being omitted with a logged
warning; the listing order is a sorted permutation of the map's keys. -/
theorem claim_C7 (w : World) (a : App) (domain dsetid : String) (rd rc : Addr)
    (hds : dictGet a.datasets dsetid = some (Val.ref rd))
    (hch : dictGet (heapGet a.heap rd) "chunks" = some (Val.ref rc))
    (hne : heapGet a.heap rc ≠ [])
    (hwf : ∀ cid ∈ (heapGet a.heap rc).map Prod.fst,
      chunkRecWF a.heap (heapGet a.heap rc) cid = true)
    (hput : w.putOk (domain.drop 1 ++ "/." ++ dsetid ++ ".chunks.txt") = true) :
    updateDatasetContents w a domain dsetid = .ok
      (specChunkWarns a.heap (heapGet a.heap rc)
         (sortStrings ((heapGet a.heap rc).map Prod.fst)) ++
       [Out.putBytes (domain.drop 1 ++ "/." ++ dsetid ++ ".chunks.txt")
         (specChunkManifest a.heap (heapGet a.heap rc)
           (sortStrings ((heapGet a.heap rc).map Prod.fst)))]) ∧
    List.Sorted (· ≤ ·) (sortStrings ((heapGet a.heap rc).map Prod.fst)) ∧
    (sortStrings ((heapGet a.heap rc).map Prod.fst)).Perm
      ((heapGet a.heap rc).map Prod.fst) := by
  refine ⟨?_, sortStrings_sorted _, sortStrings_perm _⟩
  have hwf' : ∀ cid ∈ sortStrings ((heapGet a.heap rc).map Prod.fst),
      chunkRecWF a.heap (heapGet a.heap rc) cid = true :=
    fun cid hcm => hwf cid ((sortStrings_perm _).mem_iff.1 hcm)
  unfold updateDatasetContents
  rw [hds]
  simp only [pyGet]
  rw [hch]
  simp only [pyLen]
  rw [if_neg (by simpa using hne)]
  simp only [FORCE_CONTENT_LIST_CREATION, Bool.not_true, Bool.and_false,
    Bool.false_eq_true, if_false, pyKeys]
  rw [chunkLines_spec _ _ _ hwf']
  simp [hput]

/-- Modelled from the spec (domain manifests): one line
`<objid> <ETag> <LastModified> <Size>\n` per listed member of a collection
map, members lacking any field contributing nothing. -/
def specDomainManifest (h : Heap) (col : Dict) : List String → String
  | [] => ""
  | oid :: t =>
    (match dictGet col oid with
     | some (Val.ref r) =>
       match dictGet (heapGet h r) "ETag", dictGet (heapGet h r) "LastModified",
           dictGet (heapGet h r) "Size" with
       | some et, some lm, some sz =>
         oid ++ " " ++ pyStr et ++ " " ++ pyStr lm ++ " " ++ pyStr sz ++ "\n"
       | _, _, _ => ""
     | _ => "") ++ specDomainManifest h col t

set_option maxHeartbeats 1000000 in
/-- The domain-manifest line loop (full-publish mode, `objs_updated=None`)
produces exactly the declarative manifest text over the listed members. -/
theorem domainLines_spec (w : World) (a : App) (domain : String) (col : Dict)
    (ids : List String)
    (hwf : ∀ oid ∈ ids, recWF a.heap col oid = true)
    (hdso : ∀ oid ∈ ids, getCollectionForId oid = "datasets" →
      (updateDatasetContents w a domain oid).toOption.isSome = true) :
    ∃ outs, domainLines w a domain none col ids =
      .ok (specDomainManifest a.heap col ids, outs) := by
  induction ids with
  | nil => exact ⟨[], rfl⟩
  | cons oid t ih =>
    have hc := hwf oid (List.mem_cons_self oid t)
    obtain ⟨outs2, hrest⟩ :=
      ih (fun c hcm => hwf c (List.mem_cons_of_mem oid hcm))
        (fun c hcm => hdso c (List.mem_cons_of_mem oid hcm))
    have hds1 := hdso oid (List.mem_cons_self oid t)
    unfold recWF at hc
    unfold domainLines specDomainManifest
    cases hv : dictGet col oid with
    | none => rw [hv] at hc; simp at hc
    | some v =>
      rw [hv] at hc
      cases v with
      | bool b => simp at hc
      | int n => simp at hc
      | str s => simp at hc
      | ref r =>
        have hc' : ((dictGet (heapGet a.heap r) "ETag").isSome &&
            (dictGet (heapGet a.heap r) "LastModified").isSome &&
            (dictGet (heapGet a.heap r) "Size").isSome) = true := hc
        rw [Bool.and_eq_true, Bool.and_eq_true] at hc'
        obtain ⟨⟨het1, hlm1⟩, hsz1⟩ := hc'
        simp only [pyGet]
        cases het : dictGet (heapGet a.heap r) "ETag" with
        | none => rw [het] at het1; simp at het1
        | some et =>
          cases hlmv : dictGet (heapGet a.heap r) "LastModified" with
          | none => rw [hlmv] at hlm1; simp at hlm1
          | some lm =>
            cases hszv : dictGet (heapGet a.heap r) "Size" with
            | none => rw [hszv] at hsz1; simp at hsz1
            | some sz =>
              by_cases hcoll : getCollectionForId oid = "datasets"
              · cases hu : updateDatasetContents w a domain oid with
                | error e =>
                  have hds2 := hds1 hcoll
                  rw [hu] at hds2
                  simp [Except.toOption] at hds2
                | ok outs1 =>
                  have hds' : dsOutsFor w a domain none oid = .ok outs1 := by
                    unfold dsOutsFor
                    rw [if_pos hcoll, hu]
                  rw [hds', hrest]
                  exact ⟨outs1 ++ outs2, rfl⟩
              · have hds' : dsOutsFor w a domain none oid = .ok [] := by
                  unfold dsOutsFor
                  rw [if_neg hcoll]
                rw [hds', hrest]
                exact ⟨[] ++ outs2, rfl⟩

/-- The per-collection loop (full-publish mode) succeeds and its output
holds one exact manifest write per non-empty listed collection. -/
theorem domainCollections_spec (w : World) (a : App) (domain : String)
    (rr : Addr) (cs : List String)
    (hcol : ∀ c ∈ cs, ∃ rc : Addr,
      dictGet (heapGet a.heap rr) c = some (Val.ref rc))
    (hwf : ∀ c ∈ cs, ∀ rc : Addr,
      dictGet (heapGet a.heap rr) c = some (Val.ref rc) →
      (∀ oid ∈ (heapGet a.heap rc).map Prod.fst,
        recWF a.heap (heapGet a.heap rc) oid = true) ∧
      (∀ oid ∈ (heapGet a.heap rc).map Prod.fst,
        getCollectionForId oid = "datasets" →
        (updateDatasetContents w a domain oid).toOption.isSome = true))
    (hput : ∀ c ∈ cs, w.putOk (domain.drop 1 ++ "/." ++ c ++ ".txt") = true) :
    ∃ outs, domainCollections w a domain none (Val.ref rr) cs = .ok outs ∧
      ∀ c ∈ cs, ∀ rc : Addr,
        dictGet (heapGet a.heap rr) c = some (Val.ref rc) →
        heapGet a.heap rc ≠ [] →
        Out.putBytes (domain.drop 1 ++ "/." ++ c ++ ".txt")
          (specDomainManifest a.heap (heapGet a.heap rc)
            (sortStrings ((heapGet a.heap rc).map Prod.fst))) ∈ outs := by
  induction cs with
  | nil => exact ⟨[], rfl, fun c hc => absurd hc (List.not_mem_nil c)⟩
  | cons c rest ih =>
    obtain ⟨rc, hrc⟩ := hcol c (List.mem_cons_self c rest)
    obtain ⟨hwf1, hds1⟩ := hwf c (List.mem_cons_self c rest) rc hrc
    obtain ⟨outs', hrec, hmem⟩ := ih
      (fun x hx => hcol x (List.mem_cons_of_mem c hx))
      (fun x hx => hwf x (List.mem_cons_of_mem c hx))
      (fun x hx => hput x (List.mem_cons_of_mem c hx))
    unfold domainCollections
    simp only [pyGet]
    rw [hrc]
    simp only [pyLen, FORCE_CONTENT_LIST_CREATION, Bool.not_true,
      Bool.and_false, Bool.false_eq_true, if_false]
    by_cases hlen : (heapGet a.heap rc).length > 0
    · rw [if_pos hlen]
      simp only [pyKeys]
      obtain ⟨outs1, hdl⟩ := domainLines_spec w a domain (heapGet a.heap rc)
        (sortStrings ((heapGet a.heap rc).map Prod.fst))
        (fun oid ho => hwf1 oid ((sortStrings_perm _).mem_iff.1 ho))
        (fun oid ho => hds1 oid ((sortStrings_perm _).mem_iff.1 ho))
      rw [hdl, hrec, hput c (List.mem_cons_self c rest)]
      refine ⟨outs1 ++ [Out.putBytes (domain.drop 1 ++ "/." ++ c ++ ".txt")
          (specDomainManifest a.heap (heapGet a.heap rc)
            (sortStrings ((heapGet a.heap rc).map Prod.fst)))] ++ outs',
        rfl, ?_⟩
      intro x hx rc' hrc' hne'
      rcases List.mem_cons.1 hx with rfl | hx
      · rw [hrc] at hrc'
        cases Val.ref.inj (Option.some.inj hrc')
        exact List.mem_append_left _ (List.mem_append_right _
          (List.mem_cons_self _ _))
      · exact List.mem_append_right _ (hmem x hx rc' hrc' hne')
    · rw [if_neg hlen, hrec]
      refine ⟨outs', rfl, ?_⟩
      intro x hx rc' hrc' hne'
      rcases List.mem_cons.1 hx with rfl | hx
      · exfalso
        rw [hrc] at hrc'
        cases Val.ref.inj (Option.some.inj hrc')
        exact hne' (List.length_eq_zero.1 (Nat.eq_zero_of_not_pos hlen))
      · exact hmem x hx rc' hrc' hne'

/-- C6: for a domain whose record names a known root, with well-formed
member records in the root's three collection maps, nested dataset
publishes succeeding and a writable store, the full publish
(`objs_updated=None`) succeeds, and for each non-empty collection among
groups, datatypes and datasets its output holds a write of the
`<domain-without-slash>/.<collection>.txt` manifest whose bytes are
exactly one `<objid> <ETag> <LastModified> <Size>\n` line per member of
the root's map for that collection, listed in ascending objid order
(`sortStrings` being an ascending sorted permutation of the keys). -/
theorem claim_C6 (w : World) (a : App) (domain rootid : String)
    (rdm rr rcg rct rcd : Addr)
    (hdom : dictGet a.domains domain = some (Val.ref rdm))
    (hroot : dictGet (heapGet a.heap rdm) "root" = some (Val.str rootid))
    (hrts : dictGet a.roots rootid = some (Val.ref rr))
    (hcg : dictGet (heapGet a.heap rr) "groups" = some (Val.ref rcg))
    (hct : dictGet (heapGet a.heap rr) "datatypes" = some (Val.ref rct))
    (hcd : dictGet (heapGet a.heap rr) "datasets" = some (Val.ref rcd))
    (hwfg : ∀ oid ∈ (heapGet a.heap rcg).map Prod.fst,
      recWF a.heap (heapGet a.heap rcg) oid = true)
    (hwft : ∀ oid ∈ (heapGet a.heap rct).map Prod.fst,
      recWF a.heap (heapGet a.heap rct) oid = true)
    (hwfd : ∀ oid ∈ (heapGet a.heap rcd).map Prod.fst,
      recWF a.heap (heapGet a.heap rcd) oid = true)
    (hdsg : ∀ oid ∈ (heapGet a.heap rcg).map Prod.fst,
      getCollectionForId oid = "datasets" →
      (updateDatasetContents w a domain oid).toOption.isSome = true)
    (hdst : ∀ oid ∈ (heapGet a.heap rct).map Prod.fst,
      getCollectionForId oid = "datasets" →
      (updateDatasetContents w a domain oid).toOption.isSome = true)
    (hdsd : ∀ oid ∈ (heapGet a.heap rcd).map Prod.fst,
      getCollectionForId oid = "datasets" →
      (updateDatasetContents w a domain oid).toOption.isSome = true)
    (hputs : ∀ c ∈ (["groups", "datatypes", "datasets"] : List String),
      w.putOk (domain.drop 1 ++ "/." ++ c ++ ".txt") = true) :
    (∃ outs, updateDomainContent w a domain none = .ok outs ∧
      ∀ c rc, ((c = "groups" ∧ rc = rcg) ∨ (c = "datatypes" ∧ rc = rct) ∨
          (c = "datasets" ∧ rc = rcd)) →
        heapGet a.heap rc ≠ [] →
        Out.putBytes (domain.drop 1 ++ "/." ++ c ++ ".txt")
          (specDomainManifest a.heap (heapGet a.heap rc)
            (sortStrings ((heapGet a.heap rc).map Prod.fst))) ∈ outs) ∧
    (∀ l : List String,
      List.Sorted (· ≤ ·) (sortStrings l) ∧ (sortStrings l).Perm l) := by
  refine ⟨?_, fun l => ⟨sortStrings_sorted l, sortStrings_perm l⟩⟩
  have hcol : ∀ c ∈ (["groups", "datatypes", "datasets"] : List String),
      ∃ rc : Addr, dictGet (heapGet a.heap rr) c = some (Val.ref rc) := by
    intro c hc
    simp only [List.mem_cons, List.not_mem_nil, or_false] at hc
    rcases hc with rfl | rfl | rfl
    · exact ⟨rcg, hcg⟩
    · exact ⟨rct, hct⟩
    · exact ⟨rcd, hcd⟩
  have hwf : ∀ c ∈ (["groups", "datatypes", "datasets"] : List String),
      ∀ rc : Addr, dictGet (heapGet a.heap rr) c = some (Val.ref rc) →
      (∀ oid ∈ (heapGet a.heap rc).map Prod.fst,
        recWF a.heap (heapGet a.heap rc) oid = true) ∧
      (∀ oid ∈ (heapGet a.heap rc).map Prod.fst,
        getCollectionForId oid = "datasets" →
        (updateDatasetContents w a domain oid).toOption.isSome = true) := by
    intro c hc rc hrc
    simp only [List.mem_cons, List.not_mem_nil, or_false] at hc
    rcases hc with rfl | rfl | rfl
    · rw [hcg] at hrc
      cases Val.ref.inj (Option.some.inj hrc)
      exact ⟨hwfg, hdsg⟩
    · rw [hct] at hrc
      cases Val.ref.inj (Option.some.inj hrc)
      exact ⟨hwft, hdst⟩
    · rw [hcd] at hrc
      cases Val.ref.inj (Option.some.inj hrc)
      exact ⟨hwfd, hdsd⟩
  obtain ⟨outs, hdc, hmem⟩ :=
    domainCollections_spec w a domain rr ["groups", "datatypes", "datasets"]
      hcol hwf hputs
  have hh : dictHas (heapGet a.heap rdm) "root" = true := by
    unfold dictHas
    rw [hroot]
    rfl
  refine ⟨outs, ?_, ?_⟩
  · unfold updateDomainContent
    rw [hdom]
    simp only [pyContains]
    rw [hh]
    simp only [pyGet]
    rw [hroot]
    simp only []
    rw [hrts]
    simp only []
    rw [hdc]
  · intro c rc hcc hne
    rcases hcc with ⟨rfl, rfl⟩ | ⟨rfl, rfl⟩ | ⟨rfl, rfl⟩
    · exact hmem "groups" (by simp) _ hcg hne
    · exact hmem "datatypes" (by simp) _ hct hne
    · exact hmem "datasets" (by simp) _ hcd hne

/-- Domain graph for the C6 scenario: a domain record naming a root whose
groups and datasets maps are populated and whose datatypes map is empty. -/
def c6app : App :=
  { heap := [(0, [("root", .str "g-r")]),
             (1, [("datasets", .ref 2), ("datatypes", .ref 3),
                  ("groups", .ref 4)]),
             (2, [("d-member00", .ref 5)]),
             (3, []),
             (4, [("g-member00", .ref 6)]),
             (5, [("ETag", .str "e5"), ("LastModified", .int 1),
                  ("Size", .int 2)]),
             (6, [("ETag", .str "e6"), ("LastModified", .int 3),
                  ("Size", .int 4)])],
    next := 7,
    domains := [("/dom", .ref 0)],
    roots := [("g-r", .ref 1)] }

/-- Always-writable store for the C6 scenario. -/
def c6w : World :=
  { stats := fun _ => none, json := fun _ => none,
    s3exists := fun _ => false, putOk := fun _ => true,
    dnDeleteOk := fun _ => true, dnUrl := fun s => s, now := 0 }

set_option maxRecDepth 8192 in
theorem claim_C6_witness :
    (∃ outs, updateDomainContent c6w c6app "/dom" none = .ok outs ∧
      ∀ c rc, ((c = "groups" ∧ rc = 4) ∨ (c = "datatypes" ∧ rc = 3) ∨
          (c = "datasets" ∧ rc = 2)) →
        heapGet c6app.heap rc ≠ [] →
        Out.putBytes ("/dom".drop 1 ++ "/." ++ c ++ ".txt")
          (specDomainManifest c6app.heap (heapGet c6app.heap rc)
            (sortStrings ((heapGet c6app.heap rc).map Prod.fst))) ∈ outs) ∧
    (∀ l : List String,
      List.Sorted (· ≤ ·) (sortStrings l) ∧ (sortStrings l).Perm l) :=
  claim_C6 c6w c6app "/dom" "g-r" 0 1 4 3 2
    (by rfl) (by rfl) (by rfl) (by rfl) (by rfl) (by rfl)
    (by decide) (by decide) (by decide)
    (by decide) (by decide) (by decide)
    (by decide)

/-- Dataset graph for the C7 scenario: two chunks, one record complete and
one lacking an ETag (inserted out of key order to exercise the sort). -/
def c7app : App :=
  { heap := [(0, [("chunks", .ref 1)]),
             (1, [("c-000000000000000000000000000000000000_1", .ref 2),
                  ("c-000000000000000000000000000000000000_0", .ref 3)]),
             (2, [("ETag", .str "e2"), ("LastModified", .int 5),
                  ("Size", .int 7)]),
             (3, [])],
    next := 4,
    datasets := [("d-000000000000000000000000000000000000", .ref 0)] }

/-- Always-writable store for the C7 scenario. -/
def c7w : World :=
  { stats := fun _ => none, json := fun _ => none,
    s3exists := fun _ => false, putOk := fun _ => true,
    dnDeleteOk := fun _ => true, dnUrl := fun s => s, now := 0 }

set_option maxRecDepth 8192 in
theorem claim_C7_witness :
    updateDatasetContents c7w c7app "/dom"
        "d-000000000000000000000000000000000000" = .ok
      (specChunkWarns c7app.heap (heapGet c7app.heap 1)
         (sortStrings ((heapGet c7app.heap 1).map Prod.fst)) ++
       [Out.putBytes ("/dom".drop 1 ++ "/." ++
           "d-000000000000000000000000000000000000" ++ ".chunks.txt")
         (specChunkManifest c7app.heap (heapGet c7app.heap 1)
           (sortStrings ((heapGet c7app.heap 1).map Prod.fst)))]) ∧
    List.Sorted (· ≤ ·) (sortStrings ((heapGet c7app.heap 1).map Prod.fst)) ∧
    (sortStrings ((heapGet c7app.heap 1).map Prod.fst)).Perm
      ((heapGet c7app.heap 1).map Prod.fst) :=
  claim_C7 c7w c7app "/dom" "d-000000000000000000000000000000000000" 0 1
    (by rfl) (by rfl) (by decide) (by decide) (by rfl)

/-! ## Claim C8: lazy materialisation of missing parents -/

/-- C8: when the applier resolves the per-root collection for an object
whose parent root is not yet in `roots` (first conjunct: a UUID object
whose root record is absent everywhere), or for a chunk whose parent
dataset is missing from the root's datasets map (second conjunct), the
graph creates empty placeholder parent records registered in `s3keys` and
in `roots` (respectively in `s3keys` and the root's datasets map, with an
empty `chunks` map), and returns the resulting per-root collection so the
new record can be attached. -/
theorem claim_C8 (w : World) (a : App) (objid rid rt : String)
    (dmn : Option String) (opt : Option Val) (a' : App) :
    (isValidChunkId objid = false →
     w.json (getS3Key objid) = some ⟨some rt, some rid, dmn⟩ →
     dictGet a.roots rid = none →
     dictGet a.s3keys (getS3Key rid) = none →
     getDomainCollectionForObjId w a objid = .ok (opt, a') →
     dictGet a'.roots rid = some (.ref a.next) ∧
     dictGet a'.s3keys (getS3Key rid) = some (.ref a.next) ∧
     heapGet a'.heap a.next =
       [("datasets", .ref (a.next+1)), ("datatypes", .ref (a.next+2)),
        ("groups", .ref (a.next+3))] ∧
     heapGet a'.heap (a.next+1) = [] ∧
     heapGet a'.heap (a.next+2) = [] ∧
     heapGet a'.heap (a.next+3) = [] ∧
     opt = dictGet (heapGet a'.heap a.next) (getCollectionForId objid)) ∧
    (isValidChunkId objid = true →
     w.json (getS3Key (getDatasetId objid)) = some ⟨some rt, some rid, dmn⟩ →
     ∀ rr rdd : Addr,
     dictGet a.roots rid = some (.ref rr) →
     dictGet (heapGet a.heap rr) "datasets" = some (.ref rdd) →
     dictGet (heapGet a.heap rdd) (getDatasetId objid) = none →
     dictGet a.s3keys (getS3Key (getDatasetId objid)) = none →
     rdd < a.next →
     getDomainCollectionForObjId w a objid = .ok (opt, a') →
     dictGet a'.s3keys (getS3Key (getDatasetId objid)) = some (.ref a.next) ∧
     dictGet (heapGet a'.heap rdd) (getDatasetId objid) = some (.ref a.next) ∧
     heapGet a'.heap a.next = [("chunks", .ref (a.next + 1))] ∧
     heapGet a'.heap (a.next + 1) = [] ∧
     opt = some (.ref (a.next + 1))) := by
  have e2 : a.next + 1 + 1 = a.next + 2 := rfl
  have e3 : a.next + 1 + 1 + 1 = a.next + 3 := rfl
  have h10 : a.next + 1 ≠ a.next := Nat.succ_ne_self _
  have h20 : a.next + 2 ≠ a.next :=
    Nat.ne_of_gt (Nat.lt_trans (Nat.lt_succ_self _) (Nat.lt_succ_self _))
  have h30 : a.next + 3 ≠ a.next :=
    Nat.ne_of_gt (Nat.lt_trans (Nat.lt_trans (Nat.lt_succ_self _)
      (Nat.lt_succ_self _)) (Nat.lt_succ_self _))
  have h21 : a.next + 2 ≠ a.next + 1 := Nat.succ_ne_self _
  have h31 : a.next + 3 ≠ a.next + 1 :=
    Nat.ne_of_gt (Nat.lt_trans (Nat.lt_succ_self _) (Nat.lt_succ_self _))
  have h32 : a.next + 3 ≠ a.next + 2 := Nat.succ_ne_self _
  have h01 : a.next ≠ a.next + 1 := Ne.symm h10
  have h02 : a.next ≠ a.next + 2 := Ne.symm h20
  have h03 : a.next ≠ a.next + 3 := Ne.symm h30
  have h12 : a.next + 1 ≠ a.next + 2 := Ne.symm h21
  have h13 : a.next + 1 ≠ a.next + 3 := Ne.symm h31
  have h23 : a.next + 2 ≠ a.next + 3 := Ne.symm h32
  constructor
  · intro hnc hjson hnr hns hg
    unfold getDomainCollectionForObjId getRootForObjid at hg
    simp only [hnc, Bool.false_eq_true, if_false] at hg
    rw [hjson] at hg
    simp [getRootObj, s3Placeholder, ensureKeyDict, pyContains, pyGet,
      pySetItem, dictHas, alloc, hnr, hns, heapGet_heapSet_self,
      heapGet_heapSet_ne, dictGet_dictSet_self, dictGet, dictSet,
      e2, e3, h10, h20, h30, h21, h31, h32, h01, h02, h03, h12, h13,
      h23] at hg
    rw [← (by simp [dictGet] :
      dictGet [("datasets", Val.ref (a.next + 1)),
               ("datatypes", Val.ref (a.next + 2)),
               ("groups", Val.ref (a.next + 3))] (getCollectionForId objid) =
      (if "datasets" = getCollectionForId objid then some (Val.ref (a.next + 1))
       else if "datatypes" = getCollectionForId objid then
         some (Val.ref (a.next + 2))
       else if "groups" = getCollectionForId objid then
         some (Val.ref (a.next + 3))
       else none))] at hg
    cases hdg : dictGet
        [("datasets", Val.ref (a.next + 1)), ("datatypes", Val.ref (a.next + 2)),
         ("groups", Val.ref (a.next + 3))] (getCollectionForId objid) with
    | none =>
      rw [hdg] at hg
      simp only [Option.isSome_none, Bool.false_eq_true, if_false,
        Except.ok.injEq, Prod.mk.injEq] at hg
      obtain ⟨hopt, hst⟩ := hg
      subst hopt
      subst hst
      refine ⟨?_, ?_, ?_, ?_, ?_, ?_, ?_⟩
      · exact dictGet_dictSet_self _ _ _
      · exact dictGet_dictSet_self _ _ _
      · simp [heapGet_heapSet_self, heapGet_heapSet_ne, dictGet, dictSet,
          e2, e3, h10, h20, h30, h21, h31, h32, h01, h02, h03, h12, h13, h23]
      · simp [heapGet_heapSet_self, heapGet_heapSet_ne, dictGet, dictSet,
          e2, e3, h10, h20, h30, h21, h31, h32, h01, h02, h03, h12, h13, h23]
      · simp [heapGet_heapSet_self, heapGet_heapSet_ne, dictGet, dictSet,
          e2, e3, h10, h20, h30, h21, h31, h32, h01, h02, h03, h12, h13, h23]
      · simp [heapGet_heapSet_self, heapGet_heapSet_ne, dictGet, dictSet,
          e2, e3, h10, h20, h30, h21, h31, h32, h01, h02, h03, h12, h13, h23]
      · simp only [heapGet_heapSet_self]
        exact hdg.symm
    | some v =>
      rw [hdg] at hg
      simp only [Option.isSome_some, if_true, Except.ok.injEq,
        Prod.mk.injEq] at hg
      obtain ⟨hopt, hst⟩ := hg
      subst hopt
      subst hst
      refine ⟨?_, ?_, ?_, ?_, ?_, ?_, ?_⟩
      · exact dictGet_dictSet_self _ _ _
      · exact dictGet_dictSet_self _ _ _
      · simp [heapGet_heapSet_self, heapGet_heapSet_ne, dictGet, dictSet,
          e2, e3, h10, h20, h30, h21, h31, h32, h01, h02, h03, h12, h13, h23]
      · simp [heapGet_heapSet_self, heapGet_heapSet_ne, dictGet, dictSet,
          e2, e3, h10, h20, h30, h21, h31, h32, h01, h02, h03, h12, h13, h23]
      · simp [heapGet_heapSet_self, heapGet_heapSet_ne, dictGet, dictSet,
          e2, e3, h10, h20, h30, h21, h31, h32, h01, h02, h03, h12, h13, h23]
      · simp [heapGet_heapSet_self, heapGet_heapSet_ne, dictGet, dictSet,
          e2, e3, h10, h20, h30, h21, h31, h32, h01, h02, h03, h12, h13, h23]
      · simp only [heapGet_heapSet_self]
        exact hdg.symm
  · intro hc hjson rr rdd hroots hds hnodset hns hlt hg
    have hnrd : a.next ≠ rdd := Nat.ne_of_gt hlt
    have hrdn : rdd ≠ a.next := Nat.ne_of_lt hlt
    have hnrd1 : a.next + 1 ≠ rdd :=
      Nat.ne_of_gt (Nat.lt_trans hlt (Nat.lt_succ_self _))
    have hrdn1 : rdd ≠ a.next + 1 := Ne.symm hnrd1
    unfold getDomainCollectionForObjId getRootForObjid at hg
    simp only [hc, if_true] at hg
    rw [hjson] at hg
    simp [getRootObj, s3Placeholder, ensureKeyDict, pyContains, pyGet,
      pySetItem, chunkColOf, dictHas, alloc, hroots, hds, hnodset, hns,
      heapGet_heapSet_self, heapGet_heapSet_ne, dictGet_dictSet_self,
      dictGet, dictSet, hnrd, hrdn, hnrd1, hrdn1, h10, h01, e2] at hg
    obtain ⟨hopt, hst⟩ := hg
    subst hopt
    subst hst
    refine ⟨?_, ?_, ?_, ?_, rfl⟩
    · exact dictGet_dictSet_self _ _ _
    · simp [heapGet_heapSet_self, heapGet_heapSet_ne, hnrd, hrdn, hnrd1,
        hrdn1, h10, h01, dictGet_dictSet_self]
    · simp [heapGet_heapSet_self, heapGet_heapSet_ne, hnrd, hrdn, hnrd1,
        hrdn1, h10, h01, dictGet, dictSet]
    · simp [heapGet_heapSet_self, heapGet_heapSet_ne, hnrd, hrdn, hnrd1,
        hrdn1, h10, h01]

/-- Object store for the C8 scenarios: records for the fresh group and the
chunk's parent dataset, each naming a root. -/
def c8w : World :=
  { stats := fun _ => none,
    json := fun k =>
      if k = "g-aaa" then some ⟨some "r", some "g-rootA", none⟩
      else if k = "d-000000000000000000000000000000000000" then
        some ⟨some "r", some "g-rootB", none⟩
      else none,
    s3exists := fun _ => false,
    putOk := fun _ => true,
    dnDeleteOk := fun _ => true,
    dnUrl := fun s => s,
    now := 0 }

/-- Empty graph for the missing-root scenario. -/
def c8appA : App := {}

/-- A group id whose root is absent everywhere. -/
def c8gidA : String := "g-aaa"

/-- A chunk id whose parent dataset is missing from its root's map. -/
def c8gidB : String := "c-000000000000000000000000000000000000_1"

/-- Graph for the missing-dataset scenario: the root record is installed
with its three empty collection maps. -/
def c8appB : App :=
  { heap := [(0, [("datasets", .ref 1), ("datatypes", .ref 2),
                  ("groups", .ref 3)]), (1, []), (2, []), (3, [])],
    next := 4,
    roots := [("g-rootB", .ref 0)] }

/-- Result of resolving the collection for the fresh group. -/
def c8resA : Option Val × App :=
  match getDomainCollectionForObjId c8w c8appA c8gidA with
  | .ok p => p
  | .error _ => (none, c8appA)

/-- Result of resolving the collection for the orphan chunk. -/
def c8resB : Option Val × App :=
  match getDomainCollectionForObjId c8w c8appB c8gidB with
  | .ok p => p
  | .error _ => (none, c8appB)

set_option maxRecDepth 8192 in
theorem claim_C8_witness :
    (dictGet c8resA.2.roots "g-rootA" = some (Val.ref c8appA.next) ∧
     dictGet c8resA.2.s3keys (getS3Key "g-rootA") = some (Val.ref c8appA.next) ∧
     heapGet c8resA.2.heap c8appA.next =
       [("datasets", Val.ref (c8appA.next + 1)),
        ("datatypes", Val.ref (c8appA.next + 2)),
        ("groups", Val.ref (c8appA.next + 3))] ∧
     heapGet c8resA.2.heap (c8appA.next + 1) = [] ∧
     heapGet c8resA.2.heap (c8appA.next + 2) = [] ∧
     heapGet c8resA.2.heap (c8appA.next + 3) = [] ∧
     c8resA.1 = dictGet (heapGet c8resA.2.heap c8appA.next)
       (getCollectionForId c8gidA)) ∧
    (dictGet c8resB.2.s3keys (getS3Key (getDatasetId c8gidB)) =
       some (Val.ref c8appB.next) ∧
     dictGet (heapGet c8resB.2.heap 1) (getDatasetId c8gidB) =
       some (Val.ref c8appB.next) ∧
     heapGet c8resB.2.heap c8appB.next = [("chunks", Val.ref (c8appB.next + 1))] ∧
     heapGet c8resB.2.heap (c8appB.next + 1) = [] ∧
     c8resB.1 = some (Val.ref (c8appB.next + 1))) :=
  ⟨(claim_C8 c8w c8appA c8gidA "g-rootA" "r" none c8resA.1 c8resA.2).1
      (by decide) (by rfl) (by rfl) (by rfl) (by rfl),
   (claim_C8 c8w c8appB c8gidB "g-rootB" "r" none c8resB.1 c8resB.2).2
      (by decide) (by rfl) 0 1 (by rfl) (by rfl) (by rfl) (by rfl)
      (by decide) (by rfl)⟩

end AsyncNode
